import Mathlib

/-! Verification of the statement-extraction engine of `src/app.py`.

Strings are modelled as lists of characters (`LC`); Python floats as exact
rationals; Python regular expressions are compiled by hand into deterministic
scanners.  Each determinisation is justified in a comment against the
backtracking semantics of the Python `re` module (typically: a greedy
character-class repetition followed by a token outside that class never
benefits from backtracking, so maximal munch is exact). -/

namespace Portfolio

/- The Batteries rational-number operations are `@[irreducible]`, which
blocks `decide` from evaluating the exact-rational model on concrete
statements; their defining equations are restored for this file. -/
attribute [local semireducible] Rat.add Rat.sub Rat.mul Rat.inv Rat.ofScientific


abbrev LC := List Char

def lc (s : String) : LC := s.data

/-- Python whitespace class (the characters matched by a bare `\s` and by
`str.strip()` for the ASCII statements handled here). -/
def pyIsSpace (c : Char) : Bool :=
  c = ' ' || c = '\t' || c = '\n' || c = '\r' || c = '\x0b' || c = '\x0c'

/-- Python `str.strip()`: drop leading and trailing whitespace. -/
def stripLC (s : LC) : LC :=
  ((s.dropWhile pyIsSpace).reverse.dropWhile pyIsSpace).reverse

/-- Python `str.lower()` (ASCII). -/
def lowerLC (s : LC) : LC := s.map Char.toLower

/-- Python `str.upper()` (ASCII). -/
def upperLC (s : LC) : LC := s.map Char.toUpper

/-- Python `str.startswith(p)`. -/
def startsWithLC (s p : LC) : Bool :=
  match p, s with
  | [], _ => true
  | _ :: _, [] => false
  | a :: ps, c :: cs => a = c && startsWithLC cs ps

/-- Consume the literal `p` from the front of `s`, returning the rest. -/
def dropLit (p s : LC) : Option LC :=
  match p, s with
  | [], _ => some s
  | _ :: _, [] => none
  | a :: ps, c :: cs => if c = a then dropLit ps cs else none

/-- Python `p in s` (substring containment). -/
def containsSub (s p : LC) : Bool :=
  match s with
  | [] => p.isEmpty
  | _ :: rest => startsWithLC s p || containsSub rest p

/-- Python `str.splitlines()` for `\n`-separated text (the only separator
occurring in the texts assembled by the parsers): `""` gives `[]`, and a
trailing newline does not produce a final empty line. -/
def splitAux (cur : LC) (s : LC) : List LC :=
  match s with
  | [] => [cur.reverse]
  | '\n' :: rest =>
    cur.reverse :: (if rest.isEmpty then [] else splitAux [] rest)
  | c :: rest => splitAux (c :: cur) rest

def splitlinesLC (s : LC) : List LC :=
  if s.isEmpty then [] else splitAux [] s

/-- Python `str.split()` (split on whitespace runs, no empty words). -/
def splitWsAux (cur : LC) (s : LC) : List LC :=
  match s with
  | [] => if cur.isEmpty then [] else [cur.reverse]
  | c :: rest =>
    if pyIsSpace c then
      if cur.isEmpty then splitWsAux [] rest else cur.reverse :: splitWsAux [] rest
    else splitWsAux (c :: cur) rest

def splitWsLC (s : LC) : List LC := splitWsAux [] s

/-- Python `str.title()`: uppercase every letter that follows a non-letter,
lowercase the other letters. -/
def pyTitle (s : LC) : LC :=
  (s.foldl
    (fun (acc : LC × Bool) c =>
      if c.isAlpha then ((if acc.2 then c.toLower else c.toUpper) :: acc.1, true)
      else (c :: acc.1, false))
    ([], false)).1.reverse

/-- Python string `<` (lexicographic by code point; a proper prefix is
smaller). -/
def lexLt : LC → LC → Bool
  | _, [] => false
  | [], _ :: _ => true
  | a :: as, b :: bs => if a < b then true else if b < a then false else lexLt as bs

/-- Python string `<=`. -/
def lexLe (a b : LC) : Bool := !lexLt b a

/-- Stable ascending sort by a boolean `le`: structural insertion sort.
Python `sorted` (and `list.sort`) is specified as a stable sort, and any two
stable sorts with the same comparator compute the same list, so insertion
sort renders it while remaining kernel-reducible. -/
def insortBy {Y : Type} (le : Y → Y → Bool) (a : Y) : List Y → List Y
  | [] => [a]
  | b :: l => if le a b then a :: b :: l else b :: insortBy le a l

def sortBy {Y : Type} (le : Y → Y → Bool) : List Y → List Y
  | [] => []
  | a :: l => insortBy le a (sortBy le l)

/-- Greedy repetition `p{0,n}` of a character class: take at most `n` leading
characters satisfying `p`, returning them and the rest. -/
def takeUpTo (n : Nat) (p : Char → Bool) (s : LC) : LC × LC :=
  match n, s with
  | 0, s => ([], s)
  | _, [] => ([], [])
  | n + 1, c :: rest =>
    if p c then
      let (t, r) := takeUpTo n p rest
      (c :: t, r)
    else ([], c :: rest)

/-- Regex `\s+` followed by a token that cannot begin with whitespace:
require one whitespace character and consume the whole run. -/
def wsPlus (s : LC) : Option LC :=
  match s with
  | c :: rest => if pyIsSpace c then some (rest.dropWhile pyIsSpace) else none
  | [] => none

/-! ### Value normalizer (`_clean`, src/app.py lines 31-40) -/

def natOfDigits (l : LC) : Nat :=
  l.foldl (fun n c => 10 * n + (c.toNat - 48)) 0

/-- Exponent part of a Python float literal: `[+-]?digits`, consuming the
whole remaining string. -/
def parseExp (s : LC) : Option Int :=
  let core : LC → Option Int := fun r =>
    if r.isEmpty then none
    else if r.all Char.isDigit then some (natOfDigits r) else none
  match s with
  | '+' :: r => core r
  | '-' :: r => (core r).map Neg.neg
  | r => core r

/-- Body of a Python float literal after the optional sign:
`digits [. digits] [e exp]`, `digits . [e exp]` or `. digits [e exp]`.
(The special literals `inf`/`nan` and digit-group underscores accepted by
Python's `float` do not occur in currency text and are outside the model.) -/
def parseFloatCore (s : LC) : Option ℚ :=
  let ip := s.takeWhile Char.isDigit
  let r1 := s.dropWhile Char.isDigit
  let withExp : ℚ → LC → Option ℚ := fun base r =>
    match r with
    | [] => some base
    | 'e' :: r2 => (parseExp r2).map (fun e => base * (10 : ℚ) ^ e)
    | 'E' :: r2 => (parseExp r2).map (fun e => base * (10 : ℚ) ^ e)
    | _ => none
  match r1 with
  | '.' :: r2 =>
    let fp := r2.takeWhile Char.isDigit
    let r3 := r2.dropWhile Char.isDigit
    if ip.isEmpty && fp.isEmpty then none
    else withExp ((natOfDigits ip : ℚ) + (natOfDigits fp : ℚ) / (10 : ℚ) ^ fp.length) r3
  | _ =>
    if ip.isEmpty then none else withExp (natOfDigits ip : ℚ) r1

/-- Python `float(str)`: optional surrounding whitespace, optional sign,
then a float literal consuming the whole string; `none` models `ValueError`. -/
def parseFloat? (s : LC) : Option ℚ :=
  let t := stripLC s
  match t with
  | '+' :: r => parseFloatCore r
  | '-' :: r => (parseFloatCore r).map Neg.neg
  | r => parseFloatCore r

/-- `_clean` (src/app.py lines 31-40) on a string argument:
strip `$`, `,`, `%`, surrounding whitespace; a string wrapped in
parentheses is negated; an unparsable residue yields `0.0`. -/
def _clean (val : LC) : ℚ :=
  let s := stripLC (val.filter (fun c => !(c = '$' || c = ',' || c = '%')))
  let negative := s.head? = some '(' && s.getLast? = some ')'
  let s2 := s.filter (fun c => !(c = '(' || c = ')'))
  if negative then
    match parseFloat? s2 with
    | some q => -q
    | none => 0
  else if s2.isEmpty then 0
  else
    match parseFloat? s2 with
    | some q => q
    | none => 0

/-- `_clean` on the `None` argument (src/app.py line 32). -/
def _cleanOpt (val : Option LC) : ℚ :=
  match val with
  | none => 0
  | some s => _clean s

/-! ### The Holding record (section 3 of the spec)

The Python code builds plain dicts; the derived fields `gain_loss` and
`gain_loss_pct` are only added later by `calculate_summary`, which is
modelled here by carrying them with default value 0 until the aggregator
fills them in. -/

structure Holding where
  account : LC
  symbol : LC
  description : LC
  quantity : ℚ
  last_price : ℚ
  market_value : ℚ
  cost_basis : ℚ
  type : LC
  gain_loss : ℚ := 0
  gain_loss_pct : ℚ := 0
deriving DecidableEq, Repr

/-- `_NON_TICKER` (src/app.py lines 43-47). -/
def _NON_TICKER : List LC :=
  [lc "SIPC", lc "SEC", lc "NFS", lc "FBS", lc "IRA", lc "ETF", lc "ETN",
   lc "INC", lc "CL", lc "STK", lc "COM", lc "LLC", lc "LTD", lc "USD",
   lc "EUR", lc "NPV", lc "CAP", lc "ADR", lc "NA", lc "ISIN", lc "SEDOL",
   lc "CUSIP", lc "ACT", lc "ALL", lc "ANY", lc "FOR", lc "THE", lc "AND",
   lc "ARE", lc "NOT", lc "MAY", lc "SPA", lc "SPC", lc "AMP"]

/-! ### Hand-compiled regex building blocks -/

/-- Regex `[\d,]+\.[\d]{k,}` (`k = 1` in the row patterns, `k = 2` in the
Morgan Stanley number scanner).  Greedy munch is exact: shrinking `[\d,]+`
leaves a class character where the pattern requires `.`, and shrinking the
fractional digits leaves a digit where the pattern requires a non-digit, so
backtracking can never produce a different match at the same position. -/
def numTokMin (k : Nat) (s : LC) : Option (LC × LC) :=
  let a := s.takeWhile (fun c => c.isDigit || c = ',')
  let r1 := s.dropWhile (fun c => c.isDigit || c = ',')
  if a.isEmpty then none
  else
    match r1 with
    | '.' :: r2 =>
      let b := r2.takeWhile Char.isDigit
      if b.length < k then none
      else some (a ++ '.' :: b, r2.dropWhile Char.isDigit)
    | _ => none

/-- `re.findall` for `[\d,]+\.[\d]{k,}`: leftmost, non-overlapping matches.
The fuel starts at the input length plus one; every recursive call consumes
at least one character of the input, so the fuel never runs out. -/
def findallAux (k : Nat) : Nat → LC → List LC
  | 0, _ => []
  | _, [] => []
  | fuel + 1, c :: rest =>
    match numTokMin k (c :: rest) with
    | some (t, r) => t :: findallAux k fuel r
    | none => findallAux k fuel rest

def findallNumMin (k : Nat) (s : LC) : List LC := findallAux k (s.length + 1) s

/-- Leftmost regex search: try the anchored matcher at every start position. -/
def searchSimple {β : Type} (m : LC → Option β) : LC → Option β
  | [] => m []
  | c :: rest =>
    match m (c :: rest) with
    | some b => some b
    | none => searchSimple m rest

/-- Leftmost regex search also returning the text before the match (the
`line[:m.start()]` slice used for descriptions). -/
def searchSplit {β : Type} (m : LC → Option β) : LC → Option (LC × β)
  | [] => (m []).map (fun b => ([], b))
  | c :: rest =>
    match m (c :: rest) with
    | some b => some ([], b)
    | none => (searchSplit m rest).map (fun pr => (c :: pr.1, pr.2))

/-! ### Schwab PDF parser (src/app.py lines 50-159) -/

/-- Ticker class `[A-Z0-9.\-]` of `_SCHWAB_ROW`. -/
def schwabSymClass (c : Char) : Bool := c.isUpper || c.isDigit || c = '.' || c = '-'

/-- Leading group `([A-Z][A-Z0-9.\-]{0,5})` of `_SCHWAB_ROW`.  The group is
followed by `\s+` in the pattern, and no class character is whitespace, so
the greedy capped repetition is exact. -/
def schwabSym (s : LC) : Option (LC × LC) :=
  match s with
  | c :: rest =>
    if c.isUpper then
      let (t, r) := takeUpTo 5 schwabSymClass rest
      some (c :: t, r)
    else none
  | [] => none

structure SchwabRow where
  symbol : LC
  qty : LC
  price : LC
  mv : LC
  cb : LC
  gl : LC
deriving DecidableEq, Repr

/-- Gain/loss alternation `(\(?[\d,]+\.[\d]+\)?|N/A)` of `_SCHWAB_ROW`.
When the optional `\(` is taken but no number follows, neither skipping the
paren (the number class rejects `(`) nor the `N/A` branch can match, so the
whole alternation fails, as coded. -/
def schwabGain (s : LC) : Option LC :=
  match s with
  | '(' :: r =>
    match numTokMin 1 r with
    | some (t, r2) =>
      match r2 with
      | ')' :: _ => some ('(' :: t ++ [')'])
      | _ => some ('(' :: t)
    | none => none
  | _ =>
    match numTokMin 1 s with
    | some (t, r2) =>
      match r2 with
      | ')' :: _ => some (t ++ [')'])
      | _ => some t
    | none =>
      match dropLit (lc "N/A") s with
      | some _ => some (lc "N/A")
      | none => none

/-- Numeric tail `\s+qty\s+price\s+mv\s+cb\s+gl` of `_SCHWAB_ROW`, tried at
one split point of the lazy description. -/
def schwabNums (s : LC) : Option (LC × LC × LC × LC × LC) := do
  let r1 ← wsPlus s
  let (qty, r2) ← numTokMin 1 r1
  let r3 ← wsPlus r2
  let (price, r4) ← numTokMin 1 r3
  let r5 ← wsPlus r4
  let (mv, r6) ← numTokMin 1 r5
  let r7 ← wsPlus r6
  let (cb, r8) ← numTokMin 1 r7
  let r9 ← wsPlus r8
  let gl ← schwabGain r9
  pure (qty, price, mv, cb, gl)

/-- Lazy description `.*?` of `_SCHWAB_ROW`: try the numeric tail at each
successive split point, smallest description first, which is exactly the
order a lazy repetition explores; `.` never matches a newline. -/
def schwabScan : LC → Option (LC × LC × LC × LC × LC)
  | [] => none
  | c :: rest =>
    match schwabNums (c :: rest) with
    | some g => some g
    | none => if c = '\n' then none else schwabScan rest

/-- `_SCHWAB_ROW.match` (src/app.py lines 54-62), anchored at the line
start.  After the symbol, `\s+` consumes the whitespace run, so the head of
the remainder satisfies the mandatory `\S` exactly when it is nonempty. -/
def schwabRowMatch (line : LC) : Option SchwabRow :=
  match schwabSym line with
  | none => none
  | some (sym, r1) =>
    match wsPlus r1 with
    | none => none
    | some [] => none
    | some (_ :: rest) =>
      (schwabScan rest).map (fun (qty, price, mv, cb, gl) =>
        { symbol := sym, qty := qty, price := price, mv := mv, cb := cb, gl := gl })

/-- Description extraction `re.match(r'[A-Z][A-Z0-9\.\-]{0,5}\s+(\S+)', line)`
(src/app.py line 121). -/
def schwabDesc (line : LC) : Option LC :=
  match schwabSym line with
  | none => none
  | some (_, r1) =>
    match wsPlus r1 with
    | none => none
    | some r2 =>
      match r2.takeWhile (fun c => !pyIsSpace c) with
      | [] => none
      | t => some t

/-- One attempt of the Schwab inline-row matcher on a stripped line
(src/app.py lines 116-133): regex match, denylist gate, record build. -/
def schwabRowHolding (label ctype line : LC) : Option Holding :=
  match schwabRowMatch line with
  | none => none
  | some g =>
    if g.symbol ∈ _NON_TICKER then none
    else
      some { account := label, symbol := g.symbol,
             description := (schwabDesc line).getD g.symbol,
             quantity := _clean g.qty, last_price := _clean g.price,
             market_value := _clean g.mv, cost_basis := _clean g.cb,
             type := ctype }

/-- Fixed-count digit run `\d{n}`. -/
def exactDigits (n : Nat) (s : LC) : Option (LC × LC) :=
  match n, s with
  | 0, s => some ([], s)
  | _ + 1, [] => none
  | n + 1, c :: rest =>
    if c.isDigit then (exactDigits n rest).map (fun (t, r) => (c :: t, r))
    else none

/-- Maturity date `\d{2}/\d{2}/\d{2}` and the four numeric fields of
`_SCHWAB_BOND`. -/
def bondDateNums (s : LC) : Option (LC × LC × LC × LC) := do
  let (_, r1) ← exactDigits 2 s
  let r2 ← match r1 with | '/' :: r => some r | _ => none
  let (_, r3) ← exactDigits 2 r2
  let r4 ← match r3 with | '/' :: r => some r | _ => none
  let (_, r5) ← exactDigits 2 r4
  let r6 ← wsPlus r5
  let (qty, r7) ← numTokMin 1 r6
  let r8 ← wsPlus r7
  let (price, r9) ← numTokMin 1 r8
  let r10 ← wsPlus r9
  let (mv, r11) ← numTokMin 1 r10
  let r12 ← wsPlus r11
  let (cb, _) ← numTokMin 1 r12
  pure (qty, price, mv, cb)

/-- `_SCHWAB_BOND.match` (src/app.py lines 64-73).  The optional coupon
group `(?:[\d.]+\s+)?` is greedy: the with-coupon parse is attempted first
and the skip alternative only on its failure, exactly as the backtracking
engine does. -/
def schwabBondMatch (line : LC) : Option (LC × LC × LC × LC × LC) :=
  let c9 := line.take 9
  if c9.length = 9 && c9.all (fun c => !pyIsSpace c) then
    match wsPlus (line.drop 9) with
    | none => none
    | some r1 =>
      match r1.takeWhile (fun c => !pyIsSpace c) with
      | [] => none
      | desc =>
        match wsPlus (r1.dropWhile (fun c => !pyIsSpace c)) with
        | none => none
        | some r2 =>
          let withCoupon :=
            let t := r2.takeWhile (fun c => c.isDigit || c = '.')
            if t.isEmpty then none
            else
              match wsPlus (r2.dropWhile (fun c => c.isDigit || c = '.')) with
              | none => none
              | some r3 => bondDateNums r3
          match withCoupon with
          | some (qty, price, mv, cb) => some (desc, qty, price, mv, cb)
          | none =>
            (bondDateNums r2).map (fun (qty, price, mv, cb) => (desc, qty, price, mv, cb))
  else none

/-- `_SCHWAB_CASH` tried at one start position
(`BankSweep\s+\S+\s+[\d,]+\.[\d]+\s+([\d,]+\.[\d]+)`, src/app.py lines
76-78); returns the captured second number. -/
def schwabCashAt (s : LC) : Option LC := do
  let r0 ← dropLit (lc "BankSweep") s
  let r1 ← wsPlus r0
  let w := r1.takeWhile (fun c => !pyIsSpace c)
  if w.isEmpty then none
  else do
    let r2 ← wsPlus (r1.dropWhile (fun c => !pyIsSpace c))
    let (_, r3) ← numTokMin 1 r2
    let r4 ← wsPlus r3
    let (v, _) ← numTokMin 1 r4
    pure v

/-- `_SCHWAB_CASH.search` (src/app.py line 109). -/
def schwabCashSearch (s : LC) : Option LC := searchSimple schwabCashAt s

structure SchwabState where
  inPos : Bool
  ctype : LC
  cash : ℚ
  out : List Holding

/-- The cash-sweep capture a raw line contributes, or `none` when one of the
earlier branches of the per-line dispatch (section banners, Total/Estimated
skip) consumes the line before the cash check (src/app.py lines 94-111).
All of those earlier branches test the line text only, so this is a pure
function of the line. -/
def cashCaptureLine (rawLine : LC) : Option ℚ :=
  let line := stripLC rawLine
  if containsSub line (lc "Positions - Equities") then none
  else if containsSub line (lc "Positions - Exchange Traded Funds") then none
  else if containsSub line (lc "Positions - Fixed Income") then none
  else if containsSub line (lc "Positions - Options") || containsSub line (lc "Transactions") then none
  else if startsWithLC line (lc "Total") || startsWithLC line (lc "Estimated") then none
  else (schwabCashSearch line).map _clean

/-- Per-line step of `parse_schwab_pdf` (src/app.py lines 93-149). -/
def schwabLine (label : LC) (st : SchwabState) (rawLine : LC) : SchwabState :=
  let line := stripLC rawLine
  if containsSub line (lc "Positions - Equities") then
    { st with inPos := true, ctype := lc "Stock" }
  else if containsSub line (lc "Positions - Exchange Traded Funds") then
    { st with inPos := true, ctype := lc "ETF" }
  else if containsSub line (lc "Positions - Fixed Income") then
    { st with inPos := true, ctype := lc "Bond" }
  else if containsSub line (lc "Positions - Options") || containsSub line (lc "Transactions") then
    { st with inPos := false }
  else if startsWithLC line (lc "Total") || startsWithLC line (lc "Estimated") then st
  else
    match schwabCashSearch line with
    | some v => { st with cash := _clean v }
    | none =>
      if !st.inPos then st
      else
        match schwabRowMatch line with
        | some _ =>
          match schwabRowHolding label st.ctype line with
          | some h => { st with out := st.out ++ [h] }
          | none => st
        | none =>
          if st.ctype = lc "Bond" then
            match schwabBondMatch line with
            | some (desc, qty, price, mv, cb) =>
              { st with out := st.out ++
                [{ account := label, symbol := lc "BOND", description := desc,
                   quantity := _clean qty, last_price := _clean price,
                   market_value := _clean mv, cost_basis := _clean cb,
                   type := lc "Bond" }] }
            | none => st
          else st

/-- Account-number suffix regex `_(\d{3})\.PDF$` with `re.IGNORECASE`
(src/app.py lines 82-84), realised as a suffix test on the path. -/
def schwabAcctSuffix (path : LC) : LC :=
  match path.reverse with
  | f :: d :: p :: '.' :: a :: b :: c :: '_' :: _ =>
    if (f = 'F' || f = 'f') && (d = 'D' || d = 'd') && (p = 'P' || p = 'p')
        && a.isDigit && b.isDigit && c.isDigit then
      lc " (" ++ [c, b, a] ++ lc ")"
    else []
  | _ => []

/-- `parse_schwab_pdf` (src/app.py lines 80-159).  The page loop is modelled
by the flattened list of all extracted lines (the parser state persists
across pages); the synthetic Cash record is appended after the scan when the
accumulated sweep value is positive. -/
def parse_schwab_pdf (path account_label : LC) (lines : List LC) : List Holding :=
  let label := account_label ++ schwabAcctSuffix path
  let fin := lines.foldl (schwabLine label)
    { inPos := false, ctype := lc "Stock", cash := 0, out := [] }
  fin.out ++
    (if 0 < fin.cash then
      [{ account := label, symbol := lc "CASH", description := lc "Cash & Sweep",
         quantity := 1, last_price := fin.cash, market_value := fin.cash,
         cost_basis := fin.cash, type := lc "Cash" }]
    else [])

/-- Value of the synthetic cash accumulator at the end of a Schwab scan:
the capture of the last line that reaches the cash check and matches, or 0. -/
def lastCashValue (lines : List LC) : ℚ :=
  (lines.filterMap cashCaptureLine).getLastD 0

/-! ### Fidelity PDF parser (src/app.py lines 162-300) -/

/-- Symbol class `[A-Z0-9.]` of the Fidelity patterns. -/
def fidSymClass (c : Char) : Bool := c.isUpper || c.isDigit || c = '.'

/-- Symbol group `([A-Z][A-Z0-9.]{0,5})`, always followed by `\)` in the
patterns; no class character is `)`, so the greedy capped repetition is
exact. -/
def fidSymTok (s : LC) : Option (LC × LC) :=
  match s with
  | c :: rest =>
    if c.isUpper then
      let (t, r) := takeUpTo 5 fidSymClass rest
      some (c :: t, r)
    else none
  | [] => none

/-- Optional `\$?` before a numeric field.  If the `$` is taken and the rest
fails, skipping it cannot succeed either (the number class and the literal
alternative both reject `$`), so consuming an available `$` is exact. -/
def dropDollar (s : LC) : LC :=
  match s with
  | '$' :: r => r
  | _ => s

/-- Cost-basis alternation `([\d,]+\.[\d]+|not applicable)`. -/
def fidCbAlt (s : LC) : Option (LC × LC) :=
  match numTokMin 1 s with
  | some (t, r) => some (t, r)
  | none =>
    match dropLit (lc "not applicable") s with
    | some r => some (lc "not applicable", r)
    | none => none

/-- Shared numeric tail `qty\s+\$?price\s+\$?mv\s+\$?(cb|not applicable)` of
`_FID_SYM_INLINE` (after `\)\s+`) and of `_FID_NUMS_LINE`. -/
def fidNumsAt (s : LC) : Option (LC × LC × LC × LC) := do
  let (qty, r1) ← numTokMin 1 s
  let r2 ← wsPlus r1
  let (price, r3) ← numTokMin 1 (dropDollar r2)
  let r4 ← wsPlus r3
  let (mv, r5) ← numTokMin 1 (dropDollar r4)
  let r6 ← wsPlus r5
  let (cb, _) ← fidCbAlt (dropDollar r6)
  pure (qty, price, mv, cb)

/-- `_FID_NUMS_LINE.search` (src/app.py lines 177-182), returning the text
before the match and the four captures. -/
def fidNumsSearch (s : LC) : Option (LC × LC × LC × LC × LC) :=
  (searchSplit fidNumsAt s).map (fun (pre, qty, price, mv, cb) => (pre, qty, price, mv, cb))

/-- Parenthesised-symbol-and-numbers tail of `_FID_SYM_INLINE`:
`\(sym\)\s+` followed by the numeric tail, tried at one split point of the
lazy description. -/
def fidParenNums (s : LC) : Option (LC × LC × LC × LC × LC) :=
  match s with
  | '(' :: r =>
    match fidSymTok r with
    | none => none
    | some (sym, r1) =>
      match r1 with
      | ')' :: r2 =>
        match wsPlus r2 with
        | none => none
        | some r3 => (fidNumsAt r3).map (fun (qty, price, mv, cb) => (sym, qty, price, mv, cb))
      | _ => none
  | _ => none

/-- Lazy description `(.+?)` of `_FID_SYM_INLINE` after its first mandatory
character: try the parenthesised tail at each successive split point,
smallest description first (`.` never matches a newline and can match `(`,
so a failed parenthesis is swallowed by the description and a later `(` is
tried, exactly as the lazy engine behaves). -/
def fidInlineScan : LC → Option (LC × LC × LC × LC × LC × LC)
  | [] => none
  | c :: rest =>
    match fidParenNums (c :: rest) with
    | some (sym, qty, price, mv, cb) => some ([], sym, qty, price, mv, cb)
    | none =>
      if c = '\n' then none
      else
        (fidInlineScan rest).map (fun (d, sym, qty, price, mv, cb) =>
          (c :: d, sym, qty, price, mv, cb))

/-- `_FID_SYM_INLINE.match` (src/app.py lines 168-174): description group,
symbol and the four numeric captures. -/
def fidInline (ls : LC) : Option (LC × LC × LC × LC × LC × LC) :=
  match ls with
  | [] => none
  | c :: rest =>
    if c = '\n' then none
    else
      (fidInlineScan rest).map (fun (d, sym, qty, price, mv, cb) =>
        (c :: d, sym, qty, price, mv, cb))

/-- `_FID_SYM_ANY` tried at one start position (`\(([A-Z][A-Z0-9.]{0,5})\)`,
src/app.py line 176), returning the symbol and the text after the match. -/
def fidSymAnyAt (s : LC) : Option (LC × LC) :=
  match s with
  | '(' :: r =>
    match fidSymTok r with
    | none => none
    | some (sym, r1) =>
      match r1 with
      | ')' :: r2 => some (sym, r2)
      | _ => none
  | _ => none

/-- `_FID_SYM_ANY.search` (src/app.py line 267). -/
def fidSymAnySearch (s : LC) : Option (LC × LC) := searchSimple fidSymAnyAt s

/-- Section tracking of `parse_fidelity_pdf` (src/app.py lines 231-239):
the first matching branch of the `if`/`elif` chain updates the section. -/
def fidelitySection (sec ls : LC) : LC :=
  let low := lowerLC ls
  if containsSub low (lc "mutual fund") then lc "Mutual Fund"
  else if containsSub low (lc "exchange traded") || containsSub low (lc "equity etp") then lc "ETF"
  else if startsWithLC low (lc "stocks") || containsSub low (lc "common stock") then lc "Stock"
  else if containsSub low (lc "core account") || containsSub low (lc "money market") then lc "Cash"
  else sec

/-- Header/footer skip of `parse_fidelity_pdf` (src/app.py lines 242-246). -/
def fidelitySkip (ls : LC) : Bool :=
  [lc "Total ", lc "Price", lc "Description", lc "All positions", lc "Copyright",
   lc "Schwab", lc "Fidelity", lc "Information About", lc "Lost or Stolen",
   lc "Additional", lc "Income Summary", lc "Account Summary", lc "Holdings\n"].any
    (fun p => startsWithLC ls p)

/-- Indices scanned by the deferred-symbol lookback
`range(i - 1, max(i - 5, -1), -1)` (src/app.py line 279). -/
def backIdxs (i : Nat) : List Nat :=
  (List.range 4).filterMap (fun k => if k < i then some (i - 1 - k) else none)

/-- Deferred-symbol emission (case B, src/app.py lines 278-298): scan up to
four preceding lines for the first numeric line; on the first hit, gate on
the market value, assemble the description and stop. -/
def fidCaseB (lines : List LC) (i : Nat) (label sec sym : LC) : Option Holding :=
  match (backIdxs i).findSome? (fun j =>
      (fidNumsSearch (stripLC (lines.getD j []))).map (fun r => (j, r))) with
  | none => none
  | some (j, pre, qty, price, mv, cb) =>
    if 0 < _clean mv then
      let d0 := stripLC pre
      let d1 := if d0.isEmpty then sym else d0
      let desc := if d1.length < 3 && 0 < j then stripLC (lines.getD (j - 1) []) else d1
      some { account := label, symbol := sym, description := desc.take 60,
             quantity := _clean qty, last_price := _clean price,
             market_value := _clean mv, cost_basis := _clean cb, type := sec }
    else none

/-- Per-line emission of `parse_fidelity_pdf` (src/app.py lines 248-298):
case A (inline symbol) first; any inline match consumes the line; otherwise
case B (symbol anywhere, numbers on a preceding line). -/
def fidelityEmit (lines : List LC) (i : Nat) (label sec ls : LC) : Option Holding :=
  match fidInline ls with
  | some (desc, sym, qty, price, mv, cb) =>
    if sym ∉ _NON_TICKER && 0 < _clean mv then
      some { account := label, symbol := sym, description := (stripLC desc).take 60,
             quantity := _clean qty, last_price := _clean price,
             market_value := _clean mv, cost_basis := _clean cb, type := sec }
    else none
  | none =>
    match fidSymAnySearch ls with
    | none => none
    | some (sym, afterSym) =>
      if sym ∈ _NON_TICKER then none
      else if 3 ≤ (findallNumMin 1 afterSym).length then none
      else fidCaseB lines i label sec sym

structure FidState where
  sec : LC
  out : List Holding

/-- Per-line step of `parse_fidelity_pdf` (src/app.py lines 227-298):
section update first, then the header/footer skip, then the matchers. -/
def fidelityLine (lines : List LC) (label : LC) (st : FidState) (i : Nat) : FidState :=
  let ls := stripLC (lines.getD i [])
  let sec1 := fidelitySection st.sec ls
  if fidelitySkip ls then { sec := sec1, out := st.out }
  else
    match fidelityEmit lines i label sec1 ls with
    | some h => { sec := sec1, out := st.out ++ [h] }
    | none => { sec := sec1, out := st.out }

/-- Owner pattern `([A-Z]+ [A-Z]+)\s*[-–]\s*ROLLOVER IRA` tried at one
position (src/app.py line 187).  Both `[A-Z]+` groups are followed by a
non-class, non-overlap-capable token (a literal space, then `\s*[-–]`), so
greedy munch is exact. -/
def ownerAt (s : LC) : Option LC :=
  let w1 := s.takeWhile Char.isUpper
  if w1.isEmpty then none
  else
    match s.dropWhile Char.isUpper with
    | ' ' :: r2 =>
      let w2 := r2.takeWhile Char.isUpper
      if w2.isEmpty then none
      else
        match (r2.dropWhile Char.isUpper).dropWhile pyIsSpace with
        | c :: r4 =>
          if c = '-' || c = '–' then
            match dropLit (lc "ROLLOVER IRA") (r4.dropWhile pyIsSpace) with
            | some _ => some (w1 ++ ' ' :: w2)
            | none => none
          else none
        | [] => none
    | _ => none

/-- Company pattern `(FACEBOOK|META|GOOGLE|AMAZON|APPLE|MICROSOFT)` tried at
one position (src/app.py line 190), in alternation order. -/
def companyAt (s : LC) : Option LC :=
  [lc "FACEBOOK", lc "META", lc "GOOGLE", lc "AMAZON", lc "APPLE",
   lc "MICROSOFT"].findSome? (fun w => (dropLit w s).map (fun _ => w))

/-- `_fidelity_account_name` (src/app.py lines 185-194). -/
def _fidelity_account_name (text : LC) : LC :=
  if containsSub text (lc "ROLLOVER IRA") then
    match searchSimple ownerAt text with
    | some owner => lc "Fidelity IRA (" ++ pyTitle owner ++ lc ")"
    | none => lc "Fidelity IRA (Rollover)"
  else if containsSub text (lc "BROKERAGELINK") || containsSub text (lc "NON-PROTOTYPE") then
    match searchSimple companyAt text with
    | some comp => lc "Fidelity 401k (" ++ pyTitle comp ++ lc ")"
    | none => lc "Fidelity 401k (BrokerageLink)"
  else if containsSub text (lc "INDIVIDUAL") then lc "Fidelity Individual"
  else lc "Fidelity"

/-- `parse_fidelity_pdf` (src/app.py lines 208-300) on the joined document
text.  (The `account_label` parameter of the Python function is unused: the
label is derived from the document body.) -/
def parse_fidelity_pdf (full_text : LC) : List Holding :=
  let label := _fidelity_account_name full_text
  if containsSub full_text (lc "Stock Plans")
      && !containsSub full_text (lc "Common Stock")
      && !containsSub full_text (lc "Mutual Funds")
      && !containsSub full_text (lc "Exchange Traded") then []
  else
    let lines := splitlinesLC full_text
    ((List.range lines.length).foldl (fidelityLine lines label)
      { sec := lc "Stock", out := [] }).out

/-! ### Fidelity NetBenefits PDF parser (src/app.py lines 355-439) -/

/-- `_NB_ROW` tried at one start position (six decimal fields, the last four
with a mandatory `$`, src/app.py lines 361-368). -/
def nbRowAt (s : LC) : Option (LC × LC × LC × LC × LC × LC) := do
  let (bsh, r1) ← numTokMin 1 s
  let r2 ← wsPlus r1
  let (esh, r3) ← numTokMin 1 r2
  let r4 ← wsPlus r3
  let r5 ← match r4 with | '$' :: r => some r | _ => none
  let (bpx, r6) ← numTokMin 1 r5
  let r7 ← wsPlus r6
  let r8 ← match r7 with | '$' :: r => some r | _ => none
  let (epx, r9) ← numTokMin 1 r8
  let r10 ← wsPlus r9
  let r11 ← match r10 with | '$' :: r => some r | _ => none
  let (bmv, r12) ← numTokMin 1 r11
  let r13 ← wsPlus r12
  let r14 ← match r13 with | '$' :: r => some r | _ => none
  let (emv, _) ← numTokMin 1 r14
  pure (bsh, esh, bpx, epx, bmv, emv)

/-- `_NB_SKIP_KW` (src/app.py lines 369-370). -/
def _NB_SKIP_KW : List LC :=
  [lc "Shares as of", lc "Investment", lc "Tier ", lc "TIER ",
   lc "Account Totals", lc "Fidelity NetBenefits", lc "https://", lc "Page "]

def nbSkip (ls : LC) : Bool := _NB_SKIP_KW.any (fun kw => containsSub ls kw)

/-- Indices scanned by the NetBenefits description lookback
`range(i - 1, max(i - 6, -1), -1)` (src/app.py line 411). -/
def backIdxs5 (i : Nat) : List Nat :=
  (List.range 5).filterMap (fun k => if k < i then some (i - 1 - k) else none)

/-- Nearest usable preceding description line (src/app.py lines 410-420):
skip blank lines, stop empty-handed at a previous data row, skip `$`/keyword
lines, otherwise stop with the line. -/
def nbPrevName (lines : List LC) : List Nat → LC
  | [] => []
  | j :: rest =>
    let pls := stripLC (lines.getD j [])
    if pls.isEmpty then nbPrevName lines rest
    else if (searchSimple nbRowAt pls).isSome then []
    else if containsSub pls (lc "$") || nbSkip pls then nbPrevName lines rest
    else pls

/-- Per-line emission of `parse_fidelity_netbenefits`
(src/app.py lines 391-437). -/
def nbEmit (lines : List LC) (i : Nat) (acct ls : LC) : Option Holding :=
  if nbSkip ls then none
  else
    match searchSplit nbRowAt ls with
    | none => none
    | some (pre, _bsh, esh, _bpx, epx, _bmv, emv) =>
      let qty := _clean esh
      let price := _clean epx
      let mv := _clean emv
      if mv ≤ 0 || qty ≤ 0 then none
      else
        let pfx := stripLC pre
        let prev := nbPrevName lines (backIdxs5 i)
        let desc :=
          if !prev.isEmpty then stripLC (prev ++ ' ' :: pfx)
          else if pfx.isEmpty then lc "401k Fund" else pfx
        let symWords := (splitWsLC desc).filter (fun w => (w.headD ' ').isAlpha)
        let sym0 := (symWords.map (fun w => (w.headD ' ').toUpper)).take 6
        some { account := acct, symbol := if sym0.isEmpty then lc "FUND" else sym0,
               description := desc.take 60, quantity := qty, last_price := price,
               market_value := mv, cost_basis := 0, type := lc "Mutual Fund" }

/-- Page-1 pattern `Retirement Savings Statement\s*\n(.+?)\n` tried at one
position (src/app.py line 385).  `\s*` greedily ends at the last newline of
the whitespace run, and the lazy group then captures up to the next newline,
which must exist.  (The degenerate backtracking case in which the text after
the label is whitespace-only is not modelled; it cannot arise in statement
text and only influences a fallback account label.) -/
def nbNameAt (s : LC) : Option LC := do
  let r ← dropLit (lc "Retirement Savings Statement") s
  let w := r.takeWhile pyIsSpace
  if ('\n' ∈ w) then
    let leftover := (w.reverse.takeWhile (fun c => c ≠ '\n')).reverse
    let restNW := r.dropWhile pyIsSpace
    if restNW.any (fun c => c = '\n') then
      some (leftover ++ restNW.takeWhile (fun c => c ≠ '\n'))
    else none
  else none

/-- Account-name detection of `parse_fidelity_netbenefits`
(src/app.py lines 377-386). -/
def nbAcct (page1 : LC) : LC :=
  let p1up := upperLC page1
  if containsSub p1up (lc "RED HAT") then lc "Fidelity 401k (Red Hat)"
  else if containsSub p1up (lc "MICROSOFT") then lc "Fidelity 401k (Microsoft)"
  else
    match searchSimple nbNameAt page1 with
    | some name => (stripLC name).take 40
    | none => lc "Fidelity 401k"

/-- `parse_fidelity_netbenefits` (src/app.py lines 372-439) on the two
extracted page texts. -/
def parse_fidelity_netbenefits (page1 page2 : LC) : List Holding :=
  let acct := nbAcct page1
  let lines := splitlinesLC page2
  (List.range lines.length).foldl
    (fun out i =>
      let ls := stripLC (lines.getD i [])
      match nbEmit lines i acct ls with
      | some h => out ++ [h]
      | none => out)
    []

/-! ### Morgan Stanley PDF parser (src/app.py lines 303-352) -/

/-- Labelled-line pattern `LABEL\s+(.*?)(?:\n|$)` tried at one position
(src/app.py line 319): after the label's whitespace run the lazy group
captures up to the next newline or the end of the text. -/
def labelTailAt (lab : LC) (s : LC) : Option LC := do
  let r ← dropLit lab s
  let w := r.takeWhile pyIsSpace
  if w.isEmpty then none
  else some ((r.dropWhile pyIsSpace).takeWhile (fun c => c ≠ '\n'))

/-- `last_val` (src/app.py lines 318-323): search the labelled line, collect
the numbers `[\d,]+\.[\d]{2,}` of its tail, clean the last one, else 0. -/
def last_val (text lab : LC) : ℚ :=
  match searchSimple (labelTailAt lab) text with
  | none => 0
  | some grp =>
    match (findallNumMin 2 grp).getLast? with
    | some n => _clean n
    | none => 0

/-- Issuer pattern `Issuer Description:\s+(.+?)(?:\n|$)` tried at one
position (src/app.py line 311); the group needs at least one character.
(As for `nbNameAt`, the degenerate whitespace-only-tail backtracking case is
not modelled.) -/
def issuerAt (s : LC) : Option LC := do
  let r ← dropLit (lc "Issuer Description:") s
  let w := r.takeWhile pyIsSpace
  if w.isEmpty then none
  else
    match r.dropWhile pyIsSpace with
    | [] => none
    | rest => some (rest.takeWhile (fun c => c ≠ '\n'))

/-- `parse_morgan_stanley_pdf` (src/app.py lines 307-352) on the first-page
text.  `round(qty * price, 2)` is modelled by `round2` below. -/
def round2 (x : ℚ) : ℚ := (round (x * 100) : ℤ) / 100

def parse_morgan_stanley_pdf (account_label text : LC) : List Holding :=
  let issuerGrp := searchSimple issuerAt text
  let issuer := upperLC (stripLC (issuerGrp.getD []))
  let qty := last_val text (lc "Number of Shares")
  let price := last_val text (lc "Share Price")
  let mv0 := last_val text (lc "Share Value")
  let mv := if mv0 = 0 && 0 < qty && 0 < price then round2 (qty * price) else mv0
  if qty = 0 && mv = 0 then []
  else
    let symbol :=
      if containsSub issuer (lc "MICROSOFT") then lc "MSFT"
      else if containsSub issuer (lc "APPLE") then lc "AAPL"
      else if containsSub issuer (lc "GOOGLE") then lc "GOOGL"
      else if containsSub issuer (lc "AMAZON") then lc "AMZN"
      else if containsSub issuer (lc "META") then lc "META"
      else lc "IBM"
    [{ account := account_label, symbol := symbol,
       description := match issuerGrp with
         | some g => (stripLC g).take 60
         | none => symbol,
       quantity := qty, last_price := price, market_value := mv,
       cost_basis := 0, type := lc "Stock" }]

/-! ### Statement selector (src/app.py lines 529-571) -/

/-- Word class `\w` (ASCII range). -/
def wChar (c : Char) : Bool := c.isAlpha || c.isDigit || c = '_'

/-- Convention (a) `(\d{4}-\d{2}-\d{2})_(\w+)\.` tried at one position
(src/app.py line 532).  `(\w+)` greedy is exact: `.` is not a word
character. -/
def dateAcctAt1 (s : LC) : Option (LC × LC) := do
  let (y, r1) ← exactDigits 4 s
  let r2 ← match r1 with | '-' :: r => some r | _ => none
  let (mo, r3) ← exactDigits 2 r2
  let r4 ← match r3 with | '-' :: r => some r | _ => none
  let (d, r5) ← exactDigits 2 r4
  let r6 ← match r5 with | '_' :: r => some r | _ => none
  let a := r6.takeWhile wChar
  if a.isEmpty then none
  else
    match r6.dropWhile wChar with
    | '.' :: _ => some (y ++ '-' :: mo ++ '-' :: d, a)
    | _ => none

/-- Convention (b) `(\d{2})_(\d{2})_(\d{4})\.` tried at one position
(src/app.py line 537); the date is reassembled as `YYYY-MM-DD`. -/
def dateAcctAt2 (s : LC) : Option LC := do
  let (mo, r1) ← exactDigits 2 s
  let r2 ← match r1 with | '_' :: r => some r | _ => none
  let (d, r3) ← exactDigits 2 r2
  let r4 ← match r3 with | '_' :: r => some r | _ => none
  let (y, r5) ← exactDigits 4 r4
  match r5 with
  | '.' :: _ => some (y ++ '-' :: mo ++ '-' :: d)
  | _ => none

/-- Convention (c) compact date `(\d{8})` tried at one position
(src/app.py line 544). -/
def dateAcctAt3 (s : LC) : Option LC := (exactDigits 8 s).map (fun (d, _) => d)

/-- Variant suffix `-(\d+)\.` tried at one position (src/app.py line 546). -/
def variantAt (s : LC) : Option LC :=
  match s with
  | '-' :: r =>
    let d := r.takeWhile Char.isDigit
    if d.isEmpty then none
    else
      match r.dropWhile Char.isDigit with
      | '.' :: _ => some d
      | _ => none
  | _ => none

/-- `_extract_date_and_account` (src/app.py lines 529-556): the three
filename conventions in priority order, then the keep-everything fallback. -/
def _extract_date_and_account (fname : LC) : LC × LC :=
  match searchSimple dateAcctAt1 fname with
  | some (d, a) => (d, a)
  | none =>
    match searchSimple dateAcctAt2 fname with
    | some d => (d, lc "ms")
    | none =>
      match searchSimple dateAcctAt3 fname with
      | some d8 =>
        let acct := lc "fid_" ++ ((searchSimple variantAt fname).getD (lc "0"))
        (d8.drop 4 ++ '-' :: d8.take 2 ++ '-' :: (d8.drop 2).take 2, acct)
      | none => (lc "0000-00-00", fname)

/-- File filter of `_most_recent_files` (src/app.py lines 560-562):
`os.path.splitext(f)[1].lower()`, with the Python rule that the leading dots
of the name never start an extension. -/
def splitextExt (f : LC) : LC :=
  let lead := (f.takeWhile (fun c => c = '.')).length
  let rest := f.drop lead
  if rest.any (fun c => c = '.') then
    '.' :: (rest.reverse.takeWhile (fun c => c ≠ '.')).reverse
  else []

def eligibleFile (f : LC) : Bool :=
  !startsWithLC f (lc ".") &&
    (lowerLC (splitextExt f) = lc ".csv" || lowerLC (splitextExt f) = lc ".pdf")

/-- One `best` update of `_most_recent_files` (src/app.py lines 565-569):
insert a new account key at the end, or overwrite an existing entry when the
new date is strictly greater. -/
def updBest (b : List (LC × LC × LC)) (k d f : LC) : List (LC × LC × LC) :=
  match b with
  | [] => [(k, d, f)]
  | (k0, d0, f0) :: rest =>
    if k = k0 then (if lexLt d0 d then (k0, d, f) else (k0, d0, f0)) :: rest
    else (k0, d0, f0) :: updBest rest k d f

/-- One iteration of the `best` loop (src/app.py lines 566-569): extract
the `(date, account)` pair and update the dictionary. -/
def bestStep (b : List (LC × LC × LC)) (f : LC) : List (LC × LC × LC) :=
  updBest b (_extract_date_and_account f).2 (_extract_date_and_account f).1 f

/-- The `best` dictionary after scanning all filenames. -/
def bestFold (files : List LC) : List (LC × LC × LC) :=
  files.foldl bestStep []

/-- `_most_recent_files` (src/app.py lines 558-571) on the directory
listing: filter, keep the latest file per account key, return the kept
filenames sorted. -/
def _most_recent_files (files : List LC) : List LC :=
  sortBy lexLe ((bestFold (files.filter eligibleFile)).map (fun e => e.2.2))

/-! ### Aggregator (`calculate_summary`, src/app.py lines 597-629)

`round(x, 2)` on Python floats rounds the binary value half-to-even; on the
exact rationals of this model it is rendered as decimal rounding (`round2`),
which agrees on every value whose second decimal is exact — in particular on
all values appearing in the claims.  The `file_count` field is a directory
statistic outside the parsing model and is not carried. -/

structure Summary where
  total_value : ℚ
  total_cost : ℚ
  total_gain : ℚ
  total_gain_pct : ℚ
  num_positions : Nat
  accounts : List (LC × ℚ)
  allocation : List (LC × ℚ)
  holdings : List Holding
deriving DecidableEq, Repr

/-- Derived per-holding fields (src/app.py lines 598-600). -/
def deriveGL (h : Holding) : Holding :=
  let gl := h.market_value - h.cost_basis
  { h with gain_loss := gl,
           gain_loss_pct := if 0 < h.cost_basis then gl / h.cost_basis * 100 else 0 }

/-- `dict.get(k, 0) + v` update preserving insertion order
(src/app.py lines 609-611). -/
def upsert (m : List (LC × ℚ)) (k : LC) (v : ℚ) : List (LC × ℚ) :=
  match m with
  | [] => [(k, v)]
  | (k0, v0) :: rest => if k = k0 then (k0, v0 + v) :: rest else (k0, v0) :: upsert rest k v

/-- `calculate_summary` (src/app.py lines 597-629). -/
def calculate_summary (holdings0 : List Holding) : Summary :=
  let holdings := holdings0.map deriveGL
  let total_value := (holdings.map (fun h => h.market_value)).sum
  let total_cost := (holdings.map (fun h => h.cost_basis)).sum
  let total_gain := total_value - total_cost
  let total_gain_pct := if 0 < total_cost then total_gain / total_cost * 100 else 0
  let accounts := holdings.foldl (fun m h => upsert m h.account h.market_value) []
  let allocation := holdings.foldl (fun m h => upsert m h.type h.market_value) []
  { total_value := round2 total_value,
    total_cost := round2 total_cost,
    total_gain := round2 total_gain,
    total_gain_pct := round2 total_gain_pct,
    num_positions := (holdings.filter (fun h => h.symbol ≠ lc "CASH")).length,
    accounts := (sortBy (fun p q : LC × ℚ => q.2 ≤ p.2) accounts).map (fun p => (p.1, round2 p.2)),
    allocation := (sortBy (fun p q : LC × ℚ => q.2 ≤ p.2) allocation).map (fun p => (p.1, round2 p.2)),
    holdings := sortBy (fun h g : Holding => g.market_value ≤ h.market_value) holdings }

/-! ### Multi-broker scan (`scan_data_folders`, src/app.py lines 573-588)

The loop body performs I/O (`load_file` reads and parses one file inside a
`try`/`except`): it is modelled by supplying the per-file outcome of
`load_file` for each scheduled file — `Except.ok` with its holdings, or
`Except.error` with the exception message.  The fold mirrors the
`try: holdings.extend(result) / except: continue` structure exactly. -/

def scan_data_folders (results : List (Except LC (List Holding))) : List Holding :=
  results.foldl
    (fun acc r =>
      match r with
      | Except.ok hs => acc ++ hs
      | Except.error _ => acc)
    []

/-- The residual string that `_clean` hands to `float()`: currency symbols,
thousands separators and percent signs removed, whitespace stripped,
parentheses removed (src/app.py lines 34-36). -/
def cleanResidual (val : LC) : LC :=
  (stripLC (val.filter (fun c => !(c = '$' || c = ',' || c = '%')))).filter
    (fun c => !(c = '(' || c = ')'))

/-! ## Helper lemmas -/

theorem foldl_inv {σ α : Type} (f : σ → α → σ) (P : σ → Prop)
    (hf : ∀ s a, P s → P (f s a)) :
    ∀ (l : List α) (s : σ), P s → P (l.foldl f s)
  | [], _, h => h
  | a :: l, s, h => foldl_inv f P hf l (f s a) (hf s a h)

theorem dropWhile_eq_self_of_head (p : Char → Bool) (l : LC)
    (h : ∀ c, l.head? = some c → p c = false) : l.dropWhile p = l := by
  cases l with
  | nil => rfl
  | cons c r => simp [List.dropWhile_cons, h c rfl]

theorem stripLC_of_noWs (l : LC) (h : ∀ c ∈ l, pyIsSpace c = false) :
    stripLC l = l := by
  unfold stripLC
  rw [dropWhile_eq_self_of_head _ l, dropWhile_eq_self_of_head _ l.reverse, List.reverse_reverse]
  · intro c hc
    apply h
    exact List.mem_reverse.mp (List.mem_of_mem_head? hc)
  · intro c hc
    exact h c (List.mem_of_mem_head? hc)

theorem classChar_not_ws {c : Char} (h : (c.isDigit || (c = '.' || c = ',')) = true) :
    pyIsSpace c = false := by
  cases hw : pyIsSpace c with
  | false => rfl
  | true =>
    have h6 : c = ' ' ∨ c = '\t' ∨ c = '\n' ∨ c = '\r' ∨ c = '\x0b' ∨ c = '\x0c' := by
      simpa [pyIsSpace, or_assoc] using hw
    rcases h6 with h1 | h1 | h1 | h1 | h1 | h1 <;> subst h1 <;> exact absurd h (by decide)

theorem classChar_not_paren {c : Char} (h : (c.isDigit || (c = '.' || c = ',')) = true) :
    (!(c = '(' || c = ')')) = true := by
  cases hp : (c = '(' || c = ')') with
  | false => rfl
  | true =>
    have h2 : c = '(' ∨ c = ')' := by simpa using hp
    rcases h2 with h1 | h1 <;> subst h1 <;> exact absurd h (by decide)

theorem parseFloat_nil : parseFloat? [] = none := by decide

/-- `_clean` as an explicit case analysis (pure unfolding of the
definition); the parse residue is `cleanResidual val`. -/
theorem clean_eq (val : LC) :
    _clean val =
      (if (stripLC (val.filter (fun c => !(c = '$' || c = ',' || c = '%')))).head? = some '('
          && (stripLC (val.filter (fun c => !(c = '$' || c = ',' || c = '%')))).getLast? = some ')'
        then
          match parseFloat? (cleanResidual val) with
          | some q => -q
          | none => 0
        else if (cleanResidual val).isEmpty then 0
        else
          match parseFloat? (cleanResidual val) with
          | some q => q
          | none => 0) := rfl

/-- The parenthesised-negation law of `_clean`: wrapping a string of digits,
dots and commas in parentheses negates its cleaned value. -/
theorem clean_paren_neg (s : LC)
    (h : ∀ c ∈ s, (c.isDigit || (c = '.' || c = ',')) = true) :
    _clean ('(' :: (s ++ [')'])) = - _clean s := by
  set symFilter : Char → Bool := fun c => !(c = '$' || c = ',' || c = '%') with hsymF
  set parenFilter : Char → Bool := fun c => !(c = '(' || c = ')') with hparF
  set s' := s.filter symFilter with hs'
  have hs'mem : ∀ c ∈ s', (c.isDigit || (c = '.' || c = ',')) = true :=
    fun c hc => h c (List.mem_of_mem_filter hc)
  have hs'ws : ∀ c ∈ s', pyIsSpace c = false := fun c hc => classChar_not_ws (hs'mem c hc)
  have hs'paren : ∀ c ∈ s', parenFilter c = true :=
    fun c hc => classChar_not_paren (hs'mem c hc)
  have fA : ('(' :: (s ++ [')'])).filter symFilter = '(' :: (s' ++ [')']) := by
    have hp0 : symFilter '(' = true := by rw [hsymF]; decide
    have hp1 : List.filter symFilter [')'] = [')'] := by rw [hsymF]; decide
    rw [List.filter_cons, List.filter_append, hp0, hp1, if_pos rfl, ← hs']
  have fAall : ∀ c ∈ ('(' :: (s' ++ [')'])), pyIsSpace c = false := by
    intro c hc
    rcases List.mem_cons.mp hc with h1 | h1
    · subst h1; rfl
    · rcases List.mem_append.mp h1 with h2 | h2
      · exact hs'ws c h2
      · simp only [List.mem_singleton] at h2; subst h2; rfl
  have fB : stripLC ('(' :: (s' ++ [')'])) = '(' :: (s' ++ [')']) :=
    stripLC_of_noWs _ fAall
  have fLast : ('(' :: (s' ++ [')'])).getLast? = some ')' := by
    rw [show '(' :: (s' ++ [')']) = ('(' :: s') ++ [')'] from rfl, List.getLast?_concat]
  have fD : ('(' :: (s' ++ [')'])).filter parenFilter = s' := by
    have hp1 : parenFilter '(' = false := by rw [hparF]; decide
    have hp2 : List.filter parenFilter [')'] = [] := by rw [hparF]; decide
    rw [List.filter_cons, List.filter_append, hp1, hp2,
      List.filter_eq_self.mpr hs'paren, List.append_nil]
    simp
  have fResL : cleanResidual ('(' :: (s ++ [')'])) = s' := by
    unfold cleanResidual
    rw [← hsymF, ← hparF, fA, fB, fD]
  have gB : stripLC s' = s' := stripLC_of_noWs _ hs'ws
  have fResR : cleanResidual s = s' := by
    unfold cleanResidual
    rw [← hsymF, ← hparF, ← hs', gB, List.filter_eq_self.mpr hs'paren]
  have gNeg : ¬(s'.head? = some '(') := by
    intro hh
    cases hcase : s'.head? with
    | none => rw [hcase] at hh; exact Option.noConfusion hh
    | some c =>
      rw [hcase] at hh
      have hc := hs'mem c (List.mem_of_mem_head? (by rw [hcase]; exact rfl))
      have hceq : c = '(' := Option.some.inj hh
      subst hceq
      exact absurd hc (by decide)
  rw [clean_eq ('(' :: (s ++ [')'])), clean_eq s, ← hsymF, fA, fB, fResL, fResR, ← hs', gB]
  have hNegL : ((('(' :: (s' ++ [')'])).head? = some '(' : Bool)
      && (('(' :: (s' ++ [')'])).getLast? = some ')' : Bool)) = true := by
    rw [List.head?_cons, fLast]
    simp
  have hNegR : ((s'.head? = some '(' : Bool) && (s'.getLast? = some ')' : Bool)) = false := by
    have hx : (s'.head? = some '(' : Bool) = false := by
      exact decide_eq_false gNeg
    rw [hx, Bool.false_and]
  rw [hNegL, hNegR, if_pos rfl]
  simp only [Bool.false_eq_true, if_false]
  cases hp : parseFloat? s' with
  | some q =>
    have hne : s'.isEmpty = false := by
      cases hcase : s' with
      | nil => rw [hcase, parseFloat_nil] at hp; exact Option.noConfusion hp
      | cons a l => rfl
    rw [hne]
    simp
  | none =>
    cases hs'e : s'.isEmpty <;> simp

/-- C5: the value normalizer never fails: `None` and the empty string give
0.0, any string whose cleaned residual is unparsable gives 0.0, a
parenthesised numeric string is returned negated, and in particular
`_clean "(1,234.50)" = -1234.50`.  ("Never raises" is rendered by
`_clean`/`_cleanOpt` being total functions; a Python number argument passes
through `str()` and re-parses to itself, outside the string model.) -/
theorem C5_normalizer :
    _cleanOpt none = 0
    ∧ _clean (lc "") = 0
    ∧ (∀ s : LC, parseFloat? (cleanResidual s) = none → _clean s = 0)
    ∧ (∀ s : LC, (∀ c ∈ s, (c.isDigit || (c = '.' || c = ',')) = true) →
        _clean ('(' :: (s ++ [')'])) = - _clean s)
    ∧ _clean (lc "(1,234.50)") = -1234.50 := by
  refine ⟨rfl, by decide, ?_, clean_paren_neg, by decide⟩
  intro s hnone
  rw [clean_eq s, hnone]
  split
  · rfl
  · split
    · rfl
    · rfl

/-- Witness for C5 at concrete inputs: an unparsable residual and a
parenthesised number. -/
theorem C5_normalizer_witness :
    _clean (lc "N/A") = 0
    ∧ _clean ('(' :: (lc "1,234.50" ++ [')'])) = - _clean (lc "1,234.50") :=
  ⟨C5_normalizer.2.2.1 (lc "N/A") (by decide),
   C5_normalizer.2.2.2.1 (lc "1,234.50") (by decide)⟩

/-- C2 (counterexample): on the two-line window in the order stated by the
claim - the symbol line followed by the numeric line - the Fidelity parser
emits no Holding at all: the deferred-symbol matcher only scans lines
preceding the symbol line for the numbers. -/
theorem C2_counterexample :
    parse_fidelity_pdf
      (lc "VANGUARD TOTAL STOCK (VTSAX)\n120.000 85.32 10238.40 9500.00") = [] := by
  decide

/-- C2 (amended): with the numeric line preceding the symbol line - the
order the deferred-symbol lookback actually serves - exactly one Holding is
emitted, with symbol VTSAX, quantity 120.0 and market value 10238.40. -/
theorem C2_amended :
    (parse_fidelity_pdf
        (lc "120.000 85.32 10238.40 9500.00\nVANGUARD TOTAL STOCK (VTSAX)")).map
      (fun h => (h.symbol, h.quantity, h.market_value))
    = [(lc "VTSAX", (120 : ℚ), (10238.40 : ℚ))] := by
  decide

/-- C3 (counterexample): for the two-holding input of the claim the code
computes `total_gain_pct` against the cost-basis sum 80, giving 87.5, not
the claimed 46.67 (which would be the gain against total value 150). -/
theorem C3_counterexample :
    (calculate_summary
      [{ account := lc "A", symbol := lc "X", description := lc "x",
         quantity := 1, last_price := 1, market_value := 100, cost_basis := 80,
         type := lc "Stock" },
       { account := lc "A", symbol := lc "Y", description := lc "y",
         quantity := 1, last_price := 1, market_value := 50, cost_basis := 0,
         type := lc "Stock" }]).total_gain_pct = 87.5
    ∧ (87.5 : ℚ) ≠ 46.67 := by
  constructor
  · decide
  · decide

/-- C3 (amended): for holdings `[{mv:100,cb:80},{mv:50,cb:0}]` the
aggregator returns `total_gain = 70` and `total_gain_pct = 87.5` (computed
against the nonzero cost-basis sum of 80); the zero-cost-basis holding gets
`gain_loss_pct = 0` at the per-holding level but is not excluded from the
totals (`total_value = 150`, and its own `gain_loss = 50` is present). -/
theorem C3_amended :
    (calculate_summary
      [{ account := lc "A", symbol := lc "X", description := lc "x",
         quantity := 1, last_price := 1, market_value := 100, cost_basis := 80,
         type := lc "Stock" },
       { account := lc "A", symbol := lc "Y", description := lc "y",
         quantity := 1, last_price := 1, market_value := 50, cost_basis := 0,
         type := lc "Stock" }]).total_gain = 70
    ∧ (calculate_summary
      [{ account := lc "A", symbol := lc "X", description := lc "x",
         quantity := 1, last_price := 1, market_value := 100, cost_basis := 80,
         type := lc "Stock" },
       { account := lc "A", symbol := lc "Y", description := lc "y",
         quantity := 1, last_price := 1, market_value := 50, cost_basis := 0,
         type := lc "Stock" }]).total_gain_pct = 87.5
    ∧ (calculate_summary
      [{ account := lc "A", symbol := lc "X", description := lc "x",
         quantity := 1, last_price := 1, market_value := 100, cost_basis := 80,
         type := lc "Stock" },
       { account := lc "A", symbol := lc "Y", description := lc "y",
         quantity := 1, last_price := 1, market_value := 50, cost_basis := 0,
         type := lc "Stock" }]).total_value = 150
    ∧ ((calculate_summary
      [{ account := lc "A", symbol := lc "X", description := lc "x",
         quantity := 1, last_price := 1, market_value := 100, cost_basis := 80,
         type := lc "Stock" },
       { account := lc "A", symbol := lc "Y", description := lc "y",
         quantity := 1, last_price := 1, market_value := 50, cost_basis := 0,
         type := lc "Stock" }]).holdings.map
        (fun h => (h.gain_loss, h.gain_loss_pct))) = [(20, 25), (50, 0)] := by
  refine ⟨by decide, by decide, by decide, by decide⟩

/-- C7: a Fidelity document whose text contains "Stock Plans" but none of
"Common Stock", "Mutual Funds", "Exchange Traded" short-circuits to an
empty result set. -/
theorem C7_stock_plan_short_circuit (text : LC)
    (h1 : containsSub text (lc "Stock Plans") = true)
    (h2 : containsSub text (lc "Common Stock") = false)
    (h3 : containsSub text (lc "Mutual Funds") = false)
    (h4 : containsSub text (lc "Exchange Traded") = false) :
    parse_fidelity_pdf text = [] := by
  unfold parse_fidelity_pdf
  rw [h1, h2, h3, h4]
  rfl

/-- Witness for C7: a concrete stock-plan-only document. -/
theorem C7_witness :
    parse_fidelity_pdf (lc "Stock Plans\nAPPLE INC (AAPL) 10.000 100.00 1000.00 900.00") = [] :=
  C7_stock_plan_short_circuit _ (by decide) (by decide) (by decide) (by decide)

theorem scanAux_shift :
    ∀ (l : List (Except LC (List Holding))) (acc : List Holding),
      l.foldl (fun acc r => match r with
        | Except.ok hs => acc ++ hs
        | Except.error _ => acc) acc
      = acc ++ l.foldl (fun acc r => match r with
        | Except.ok hs => acc ++ hs
        | Except.error _ => acc) []
  | [], acc => by simp
  | r :: l, acc => by
    cases r with
    | ok hs =>
      simp only [List.foldl_cons]
      rw [scanAux_shift l (acc ++ hs), scanAux_shift l ([] ++ hs), List.append_assoc,
        List.nil_append]
    | error e =>
      simp only [List.foldl_cons]
      exact scanAux_shift l acc

theorem scan_append (l1 l2 : List (Except LC (List Holding))) :
    scan_data_folders (l1 ++ l2) = scan_data_folders l1 ++ scan_data_folders l2 := by
  unfold scan_data_folders
  rw [List.foldl_append]
  exact scanAux_shift l2 _

/-- C8: an exception while parsing one file is absorbed at the per-file
boundary: the scan result with a failing file equals the concatenation of
the other files' holdings, exactly as if the failing file were absent. -/
theorem C8_error_isolation (pre post : List (Except LC (List Holding))) (e : LC) :
    scan_data_folders (pre ++ Except.error e :: post)
        = scan_data_folders pre ++ scan_data_folders post
    ∧ scan_data_folders (pre ++ Except.error e :: post)
        = scan_data_folders (pre ++ post) := by
  have h1 : scan_data_folders (Except.error e :: post) = scan_data_folders post := rfl
  constructor
  · rw [scan_append pre (Except.error e :: post), h1]
  · rw [scan_append pre (Except.error e :: post), h1, scan_append pre post]

theorem dropWhile_head_not (p : Char → Bool) :
    ∀ (l : LC) (d : Char) (r : LC), l.dropWhile p = d :: r → p d = false
  | [], _, _, h => absurd h (by simp)
  | c :: l, d, r, h => by
    rw [List.dropWhile_cons] at h
    split at h
    · exact dropWhile_head_not p l d r h
    · rename_i hnp
      injection h with h1 _
      subst h1
      exact Bool.eq_false_iff.mpr hnp

theorem symClass_of_space {d : Char} (hd : pyIsSpace d = true) : schwabSymClass d = false := by
  have h6 : d = ' ' ∨ d = '\t' ∨ d = '\n' ∨ d = '\r' ∨ d = '\x0b' ∨ d = '\x0c' := by
    simpa [pyIsSpace, or_assoc] using hd
  rcases h6 with h | h | h | h | h | h <;> subst h <;> decide

theorem takeUpTo_all_class (p : Char → Bool) :
    ∀ (n : Nat) (t : LC) (d : Char) (r : LC), t.length ≤ n →
      (∀ c ∈ t, p c = true) → p d = false →
      takeUpTo n p (t ++ d :: r) = (t, d :: r)
  | n, [], d, r, _, _, hd => by
    cases n with
    | zero => simp [takeUpTo]
    | succ m => simp [takeUpTo, hd]
  | n, c :: t, d, r, hlen, hall, hd => by
    cases n with
    | zero => exact absurd hlen (by simp)
    | succ m =>
      have hc : p c = true := hall c (List.mem_cons_self c t)
      have ih := takeUpTo_all_class p m t d r (by simpa using hlen)
        (fun x hx => hall x (List.mem_cons_of_mem _ hx)) hd
      simp only [List.cons_append, takeUpTo, hc, if_true, List.append_eq, ih]

theorem schwabSym_token (c0 : Char) (t : LC) (d : Char) (r : LC)
    (hc0 : c0.isUpper = true) (hall : ∀ c ∈ t, schwabSymClass c = true)
    (hlen : t.length ≤ 5) (hd : schwabSymClass d = false) :
    schwabSym ((c0 :: t) ++ d :: r) = some (c0 :: t, d :: r) := by
  have ht := takeUpTo_all_class schwabSymClass 5 t d r hlen hall hd
  show schwabSym (c0 :: (t ++ d :: r)) = some (c0 :: t, d :: r)
  simp only [schwabSym, List.append_eq, ht, hc0, if_true]

theorem schwabRowHolding_token_space (label ctype tok : LC) (d : Char) (r : LC)
    (htok : schwabSym (tok ++ d :: r) = some (tok, d :: r))
    (hmem : tok ∈ _NON_TICKER)
    (hd : pyIsSpace d = true) :
    schwabRowHolding label ctype (tok ++ d :: r) = none := by
  have hws : wsPlus (d :: r) = some (r.dropWhile pyIsSpace) := by
    simp only [wsPlus, hd, if_true]
  cases hdw : r.dropWhile pyIsSpace with
  | nil => simp [schwabRowHolding, schwabRowMatch, htok, hws, hdw]
  | cons e r2 =>
    cases hscan : schwabScan r2 with
    | none => simp [schwabRowHolding, schwabRowMatch, htok, hws, hdw, hscan]
    | some g =>
      obtain ⟨qty, price, mv, cb, gl⟩ := g
      simp [schwabRowHolding, schwabRowMatch, htok, hws, hdw, hscan, hmem]

theorem schwabRowHolding_denyTok (label ctype line tok : LC) (c0 : Char) (t : LC)
    (hct : tok = c0 :: t)
    (htw : line.takeWhile (fun c => !pyIsSpace c) = tok)
    (hmemN : tok ∈ _NON_TICKER)
    (hc0 : c0.isUpper = true) (hall : ∀ c ∈ t, schwabSymClass c = true)
    (hlen : t.length ≤ 5)
    (hnoneM : schwabRowMatch tok = none) :
    schwabRowHolding label ctype line = none := by
  subst hct
  have hsplit := List.takeWhile_append_dropWhile (p := fun c => !pyIsSpace c) (l := line)
  rw [htw] at hsplit
  cases hdw : line.dropWhile (fun c => !pyIsSpace c) with
  | nil =>
    rw [hdw, List.append_nil] at hsplit
    rw [← hsplit]
    simp [schwabRowHolding, hnoneM]
  | cons d r =>
    have hd : pyIsSpace d = true := by
      have hx := dropWhile_head_not (fun c => !pyIsSpace c) line d r hdw
      simpa using hx
    have hline : line = (c0 :: t) ++ d :: r := by rw [← hsplit, hdw]
    rw [hline]
    exact schwabRowHolding_token_space label ctype (c0 :: t) d r
      (schwabSym_token c0 t d r hc0 hall hlen (symClass_of_space hd)) hmemN hd

/-- C6: for every line whose first whitespace-delimited token is one of
SIPC, SEC, IRA, ETF or LLC, the Schwab inline-row matcher emits no Holding,
even when the rest of the line has the full inline-row shape (description
followed by the five decimal fields). -/
theorem C6_denylist_first_token (label ctype line : LC)
    (hmem : line.takeWhile (fun c => !pyIsSpace c)
      ∈ ([lc "SIPC", lc "SEC", lc "IRA", lc "ETF", lc "LLC"] : List LC)) :
    schwabRowHolding label ctype line = none := by
  simp only [List.mem_cons, List.not_mem_nil, or_false] at hmem
  rcases hmem with htw | htw | htw | htw | htw
  · exact schwabRowHolding_denyTok label ctype line _ 'S' (lc "IPC") (by decide) htw
      (by decide) (by decide) (by decide) (by decide) (by decide)
  · exact schwabRowHolding_denyTok label ctype line _ 'S' (lc "EC") (by decide) htw
      (by decide) (by decide) (by decide) (by decide) (by decide)
  · exact schwabRowHolding_denyTok label ctype line _ 'I' (lc "RA") (by decide) htw
      (by decide) (by decide) (by decide) (by decide) (by decide)
  · exact schwabRowHolding_denyTok label ctype line _ 'E' (lc "TF") (by decide) htw
      (by decide) (by decide) (by decide) (by decide) (by decide)
  · exact schwabRowHolding_denyTok label ctype line _ 'L' (lc "LC") (by decide) htw
      (by decide) (by decide) (by decide) (by decide) (by decide)

/-- Witness for C6: an ETF-token line with the full inline-row shape is
rejected by the inline-row matcher. -/
theorem C6_witness :
    schwabRowHolding (lc "Schwab") (lc "Stock")
      (lc "ETF SOMEFUND 10.00 5.00 50.00 40.00 10.00") = none :=
  C6_denylist_first_token (lc "Schwab") (lc "Stock")
    (lc "ETF SOMEFUND 10.00 5.00 50.00 40.00 10.00") (by decide)

theorem fidCaseB_pos (lines : List LC) (i : Nat) (label sec sym : LC) (h : Holding)
    (hE : fidCaseB lines i label sec sym = some h) : 0 < h.market_value := by
  unfold fidCaseB at hE
  split at hE
  · exact Option.noConfusion hE
  · split at hE
    · rename_i hpos
      cases hE
      simpa using hpos
    · exact Option.noConfusion hE

theorem fidelityEmit_pos (lines : List LC) (i : Nat) (label sec ls : LC) (h : Holding)
    (hE : fidelityEmit lines i label sec ls = some h) : 0 < h.market_value := by
  unfold fidelityEmit at hE
  split at hE
  · split at hE
    · rename_i hcond
      cases hE
      have h2 := (Bool.and_eq_true _ _).mp hcond
      simpa using of_decide_eq_true h2.2
    · exact Option.noConfusion hE
  · split at hE
    · exact Option.noConfusion hE
    · split at hE
      · exact Option.noConfusion hE
      · split at hE
        · exact Option.noConfusion hE
        · exact fidCaseB_pos lines i label sec _ h hE

theorem fidelityLine_pos (lines : List LC) (label : LC) (st : FidState) (i : Nat)
    (hP : ∀ x ∈ st.out, 0 < x.market_value) :
    ∀ x ∈ (fidelityLine lines label st i).out, 0 < x.market_value := by
  intro x hx
  unfold fidelityLine at hx
  dsimp only [] at hx
  split at hx
  · exact hP x hx
  · split at hx
    · rename_i h0 heq
      rcases List.mem_append.mp hx with hl | hr
      · exact hP x hl
      · rw [List.mem_singleton] at hr
        subst hr
        exact fidelityEmit_pos lines i label _ _ x heq
    · exact hP x hx

/-- Every Holding of the Fidelity parser has a positive market value: both
matchers gate on `_clean(mv) > 0` before appending. -/
theorem parse_fidelity_pdf_pos (text : LC) (h : Holding)
    (hmem : h ∈ parse_fidelity_pdf text) : 0 < h.market_value := by
  unfold parse_fidelity_pdf at hmem
  split at hmem
  · exact absurd hmem (List.not_mem_nil h)
  · exact foldl_inv _ (fun st => ∀ x ∈ st.out, 0 < x.market_value)
      (fun st i hP => fidelityLine_pos _ _ st i hP) _ _
      (fun x hx => absurd hx (List.not_mem_nil x)) h hmem

theorem nbEmit_pos (lines : List LC) (i : Nat) (acct ls : LC) (h : Holding)
    (hE : nbEmit lines i acct ls = some h) : 0 < h.market_value := by
  unfold nbEmit at hE
  split at hE
  · exact Option.noConfusion hE
  · split at hE
    · exact Option.noConfusion hE
    · dsimp only [] at hE
      split at hE
      · exact Option.noConfusion hE
      · rename_i hcond
        cases hE
        dsimp only
        refine lt_of_not_le fun hle => hcond ?_
        rw [decide_eq_true hle]
        simp

/-- Every Holding of the NetBenefits parser has a positive market value
(and positive share count): the fund-row matcher gates on both. -/
theorem parse_fidelity_netbenefits_pos (page1 page2 : LC) (h : Holding)
    (hmem : h ∈ parse_fidelity_netbenefits page1 page2) : 0 < h.market_value := by
  unfold parse_fidelity_netbenefits at hmem
  refine foldl_inv _ (fun out => ∀ x ∈ out, 0 < x.market_value) ?_ _ _
    (fun x hx => absurd hx (List.not_mem_nil x)) h hmem
  intro out i hP x hx
  dsimp only [] at hx
  split at hx
  · rename_i h0 heq
    rcases List.mem_append.mp hx with hl | hr
    · exact hP x hl
    · rw [List.mem_singleton] at hr
      subst hr
      exact nbEmit_pos _ i _ _ x heq
  · exact hP x hx

theorem schwabRowHolding_type (label ctype line : LC) (h : Holding)
    (hE : schwabRowHolding label ctype line = some h) : h.type = ctype := by
  unfold schwabRowHolding at hE
  split at hE
  · exact Option.noConfusion hE
  · split at hE
    · exact Option.noConfusion hE
    · cases hE
      rfl

/-- The per-line Schwab step keeps the asset-type context in
{Stock, ETF, Bond} and never appends a Holding of type Cash. -/
theorem schwabLine_inv (label : LC) (st : SchwabState) (l : LC)
    (hP : (st.ctype = lc "Stock" ∨ st.ctype = lc "ETF" ∨ st.ctype = lc "Bond")
      ∧ ∀ x ∈ st.out, x.type ≠ lc "Cash") :
    ((schwabLine label st l).ctype = lc "Stock" ∨ (schwabLine label st l).ctype = lc "ETF"
        ∨ (schwabLine label st l).ctype = lc "Bond")
      ∧ ∀ x ∈ (schwabLine label st l).out, x.type ≠ lc "Cash" := by
  obtain ⟨hty, hout⟩ := hP
  unfold schwabLine
  dsimp only []
  split
  · exact ⟨Or.inl rfl, hout⟩
  · split
    · exact ⟨Or.inr (Or.inl rfl), hout⟩
    · split
      · exact ⟨Or.inr (Or.inr rfl), hout⟩
      · split
        · exact ⟨hty, hout⟩
        · split
          · exact ⟨hty, hout⟩
          · split
            · exact ⟨hty, hout⟩
            · split
              · exact ⟨hty, hout⟩
              · split
                · split
                  · rename_i heq
                    refine ⟨hty, ?_⟩
                    intro x hx
                    rcases List.mem_append.mp hx with hl | hr
                    · exact hout x hl
                    · rw [List.mem_singleton] at hr
                      subst hr
                      rw [schwabRowHolding_type _ _ _ _ heq]
                      rcases hty with h1 | h1 | h1 <;> rw [h1] <;> decide
                  · exact ⟨hty, hout⟩
                · split
                  · split
                    · refine ⟨hty, ?_⟩
                      intro x hx
                      rcases List.mem_append.mp hx with hl | hr
                      · exact hout x hl
                      · rw [List.mem_singleton] at hr
                        subst hr
                        exact (by decide : lc "Bond" ≠ lc "Cash")
                    · exact ⟨hty, hout⟩
                  · exact ⟨hty, hout⟩

/-- Any Cash-typed Holding of the Schwab parser is the synthetic sweep
record, emitted only when the accumulated value is positive. -/
theorem parse_schwab_pdf_cash_pos (path account_label : LC) (lines : List LC) (h : Holding)
    (hmem : h ∈ parse_schwab_pdf path account_label lines) (hty : h.type = lc "Cash") :
    0 < h.market_value := by
  unfold parse_schwab_pdf at hmem
  dsimp only [] at hmem
  rcases List.mem_append.mp hmem with hl | hr
  · have hinv := foldl_inv (schwabLine (account_label ++ schwabAcctSuffix path))
      (fun st => (st.ctype = lc "Stock" ∨ st.ctype = lc "ETF" ∨ st.ctype = lc "Bond")
        ∧ ∀ x ∈ st.out, x.type ≠ lc "Cash")
      (fun st l hP => schwabLine_inv _ st l hP) lines
      { inPos := false, ctype := lc "Stock", cash := 0, out := [] }
      ⟨Or.inl rfl, fun x hx => absurd hx (List.not_mem_nil x)⟩
    exact absurd hty (hinv.2 h hl)
  · split at hr
    · rename_i hpos
      rw [List.mem_singleton] at hr
      subst hr
      exact hpos
    · exact absurd hr (List.not_mem_nil h)

/-- C1 (counterexample): the Schwab inline-row matcher has no market-value
gate: inside an equities section this document yields a non-cash Holding
with market_value = 0, refuting the claimed parser-wide invariant. -/
theorem C1_counterexample :
    ∃ h ∈ parse_schwab_pdf (lc "stmt.pdf") (lc "Schwab")
      [lc "Positions - Equities", lc "AAPL APPLE 1.00 1.00 0.00 0.00 0.00"],
      h.symbol ≠ lc "CASH" ∧ ¬(0 < h.market_value) := by
  decide

/-- C1 (amended): the positive-market-value guarantee holds for the
Fidelity parser (inline and deferred-symbol matchers), the NetBenefits
fund-row matcher, and the synthetic Cash record of the Schwab parser; the
Schwab inline and bond matchers and the Morgan Stanley parser impose no
market-value gate (see the counterexample). -/
theorem C1_amended :
    (∀ (text : LC) (h : Holding), h ∈ parse_fidelity_pdf text → 0 < h.market_value)
    ∧ (∀ (page1 page2 : LC) (h : Holding),
        h ∈ parse_fidelity_netbenefits page1 page2 → 0 < h.market_value)
    ∧ (∀ (path account_label : LC) (lines : List LC) (h : Holding),
        h ∈ parse_schwab_pdf path account_label lines → h.type = lc "Cash" →
          0 < h.market_value) :=
  ⟨fun text h hm => parse_fidelity_pdf_pos text h hm,
   fun p1 p2 h hm => parse_fidelity_netbenefits_pos p1 p2 h hm,
   fun path al lines h hm hty => parse_schwab_pdf_cash_pos path al lines h hm hty⟩

/-- Witness for C1 at concrete documents: a Fidelity deferred-symbol
holding, a NetBenefits fund row, and a Schwab synthetic Cash record. -/
theorem C1_amended_witness :
    (0 : ℚ) < (Holding.mk (lc "Fidelity") (lc "VTSAX") (lc "VTSAX")
        120 85.32 10238.40 9500 (lc "Stock") 0 0).market_value
    ∧ (0 : ℚ) < (Holding.mk (lc "Fidelity 401k (Red Hat)") (lc "VT")
        (lc "VANGUARD TARGET 2045") 110 25 2750 0 (lc "Mutual Fund") 0 0).market_value
    ∧ (0 : ℚ) < (Holding.mk (lc "Schwab") (lc "CASH") (lc "Cash & Sweep")
        1 20825.65 20825.65 20825.65 (lc "Cash") 0 0).market_value :=
  ⟨C1_amended.1 (lc "120.000 85.32 10238.40 9500.00\nVANGUARD TOTAL STOCK (VTSAX)")
      _ (by decide),
   C1_amended.2.1 (lc "RED HAT 401k plan")
      (lc "VANGUARD TARGET 2045\n100.000 110.000 $20.00 $25.00 $2000.00 $2750.00")
      _ (by decide),
   C1_amended.2.2 (lc "stmt.pdf") (lc "Schwab")
      [lc "BankSweep CHARLESSCHWAB 20825.65 20825.65"] _ (by decide) (by decide)⟩

theorem schwabLine_cash (label : LC) (st : SchwabState) (l : LC) :
    (schwabLine label st l).cash = (cashCaptureLine l).getD st.cash := by
  unfold schwabLine cashCaptureLine
  dsimp only []
  repeat' split
  all_goals (try rfl)
  all_goals simp_all

theorem schwabFold_cash (label : LC) :
    ∀ (lines : List LC) (st : SchwabState),
      (lines.foldl (schwabLine label) st).cash
        = lines.foldl (fun c l => (cashCaptureLine l).getD c) st.cash
  | [], _ => rfl
  | l :: lines, st => by
    simp only [List.foldl_cons]
    rw [schwabFold_cash label lines (schwabLine label st l), schwabLine_cash]

theorem foldl_overwrite_getLastD {α : Type} (g : α → Option ℚ) :
    ∀ (l : List α) (c : ℚ),
      l.foldl (fun acc x => (g x).getD acc) c = (l.filterMap g).getLastD c
  | [], _ => rfl
  | x :: l, c => by
    simp only [List.foldl_cons, List.filterMap_cons]
    cases hg : g x with
    | none =>
      simp only [hg, Option.getD_none]
      exact foldl_overwrite_getLastD g l c
    | some v =>
      simp only [hg, Option.getD_some, List.getLastD_cons]
      exact foldl_overwrite_getLastD g l v

/-- The final Schwab cash accumulator equals the capture of the last line
that reaches the cash check and matches the sweep pattern (overwrite, not
accumulate). -/
theorem parse_schwab_cash_eq (path account_label : LC) (lines : List LC) :
    (lines.foldl (schwabLine (account_label ++ schwabAcctSuffix path))
      { inPos := false, ctype := lc "Stock", cash := 0, out := [] }).cash
      = lastCashValue lines := by
  rw [schwabFold_cash, foldl_overwrite_getLastD]
  rfl

/-- C9 (amended): the synthetic Cash record carries the value captured on
the LAST line that reaches the cash check and matches the sweep pattern
(section-banner, Transactions and Total/Estimated lines are consumed by
earlier branches); each such match overwrites the accumulator.  Exactly one
Cash-typed Holding is emitted per document iff that final value is
positive, and it has quantity 1 and last_price, market_value and cost_basis
all equal to that value. -/
theorem C9_amended (path account_label : LC) (lines : List LC) :
    ((parse_schwab_pdf path account_label lines).countP (fun h => h.type = lc "Cash")
        = if 0 < lastCashValue lines then 1 else 0)
    ∧ ∀ h ∈ parse_schwab_pdf path account_label lines, h.type = lc "Cash" →
        h.quantity = 1 ∧ h.last_price = lastCashValue lines
          ∧ h.market_value = lastCashValue lines
          ∧ h.cost_basis = lastCashValue lines := by
  have hinv := foldl_inv (schwabLine (account_label ++ schwabAcctSuffix path))
    (fun st => (st.ctype = lc "Stock" ∨ st.ctype = lc "ETF" ∨ st.ctype = lc "Bond")
      ∧ ∀ x ∈ st.out, x.type ≠ lc "Cash")
    (fun st l hP => schwabLine_inv _ st l hP) lines
    { inPos := false, ctype := lc "Stock", cash := 0, out := [] }
    ⟨Or.inl rfl, fun x hx => absurd hx (List.not_mem_nil x)⟩
  have hcash := parse_schwab_cash_eq path account_label lines
  constructor
  · unfold parse_schwab_pdf
    dsimp only []
    rw [List.countP_append,
      List.countP_eq_zero.mpr (fun a ha => by simpa using hinv.2 a ha), hcash]
    split
    · simp [List.countP_cons]
    · simp
  · intro h hm hty
    unfold parse_schwab_pdf at hm
    dsimp only [] at hm
    rcases List.mem_append.mp hm with hl | hr
    · exact absurd hty (hinv.2 h hl)
    · split at hr
      · rw [List.mem_singleton] at hr
        subst hr
        exact ⟨rfl, hcash, hcash, hcash⟩
      · exact absurd hr (List.not_mem_nil h)

/-- Witness for C9 at a concrete single-sweep document. -/
theorem C9_amended_witness :
    (Holding.mk (lc "Schwab") (lc "CASH") (lc "Cash & Sweep")
        1 20825.65 20825.65 20825.65 (lc "Cash") 0 0).quantity = 1
    ∧ (Holding.mk (lc "Schwab") (lc "CASH") (lc "Cash & Sweep")
        1 20825.65 20825.65 20825.65 (lc "Cash") 0 0).last_price
      = lastCashValue [lc "BankSweep CHARLESSCHWAB 20825.65 20825.65"]
    ∧ (Holding.mk (lc "Schwab") (lc "CASH") (lc "Cash & Sweep")
        1 20825.65 20825.65 20825.65 (lc "Cash") 0 0).market_value
      = lastCashValue [lc "BankSweep CHARLESSCHWAB 20825.65 20825.65"]
    ∧ (Holding.mk (lc "Schwab") (lc "CASH") (lc "Cash & Sweep")
        1 20825.65 20825.65 20825.65 (lc "Cash") 0 0).cost_basis
      = lastCashValue [lc "BankSweep CHARLESSCHWAB 20825.65 20825.65"] :=
  (C9_amended (lc "s.pdf") (lc "Schwab")
    [lc "BankSweep CHARLESSCHWAB 20825.65 20825.65"]).2 _ (by decide) (by decide)

/-- C9 (counterexample): the final cash value is NOT the capture of the
last regex-matching line: a line matching the sweep pattern that also
contains "Transactions" is consumed by an earlier branch and never reaches
the cash check, so the Cash record carries 2.00 from the first line even
though the last matching line captures 3.00. -/
theorem C9_counterexample :
    schwabCashSearch (stripLC (lc "BankSweep Transactions 1.00 3.00")) = some (lc "3.00")
    ∧ ((parse_schwab_pdf (lc "s.pdf") (lc "Schwab")
          [lc "BankSweep A 1.00 2.00", lc "BankSweep Transactions 1.00 3.00"]).map
        (fun h => (h.type, h.market_value)))
      = [(lc "Cash", (2 : ℚ))]
    ∧ (2 : ℚ) ≠ _clean (lc "3.00") := by
  refine ⟨by decide, by decide, by decide⟩

theorem mem_insortBy {Y : Type} (le : Y → Y → Bool) (a x : Y) :
    ∀ (l : List Y), x ∈ insortBy le a l ↔ x = a ∨ x ∈ l
  | [] => by simp [insortBy]
  | b :: l => by
    unfold insortBy
    split
    · simp
    · rw [List.mem_cons, mem_insortBy le a x l, List.mem_cons]
      tauto

theorem mem_sortBy {Y : Type} (le : Y → Y → Bool) (x : Y) :
    ∀ (l : List Y), x ∈ sortBy le l ↔ x ∈ l
  | [] => Iff.rfl
  | a :: l => by
    unfold sortBy
    rw [mem_insortBy, mem_sortBy le x l, List.mem_cons]

/-- C10: the Morgan Stanley parser returns at most one Holding; it returns
the empty list exactly when both the extracted share quantity and the
extracted share value are zero; any Holding it returns has cost_basis 0.0
and type Stock, so after aggregations that Holding's gain_loss equals its
full market_value while its gain_loss_pct is 0. -/
theorem C10_morgan_stanley (account_label text : LC) :
    (parse_morgan_stanley_pdf account_label text).length ≤ 1
    ∧ (parse_morgan_stanley_pdf account_label text = []
        ↔ last_val text (lc "Number of Shares") = 0
          ∧ last_val text (lc "Share Value") = 0)
    ∧ (∀ h ∈ parse_morgan_stanley_pdf account_label text,
        h.cost_basis = 0 ∧ h.type = lc "Stock")
    ∧ (∀ h ∈ (calculate_summary (parse_morgan_stanley_pdf account_label text)).holdings,
        h.gain_loss = h.market_value ∧ h.gain_loss_pct = 0) := by
  unfold parse_morgan_stanley_pdf
  dsimp only []
  split
  · -- the market value is recomputed as round2 (qty * price): qty is positive
    rename_i hadj
    have hqpos : 0 < last_val text (lc "Number of Shares") :=
      of_decide_eq_true ((Bool.and_eq_true _ _).mp ((Bool.and_eq_true _ _).mp hadj).1).2
    split
    · rename_i hcond
      exact absurd (of_decide_eq_true ((Bool.and_eq_true _ _).mp hcond).1)
        (ne_of_gt hqpos)
    · refine ⟨by simp, ?_, ?_, ?_⟩
      · constructor
        · intro hfalse
          exact absurd hfalse (by simp)
        · rintro ⟨hq, _⟩
          exact absurd hq (ne_of_gt hqpos)
      · intro h hmem
        rw [List.mem_singleton] at hmem
        subst hmem
        exact ⟨rfl, rfl⟩
      · intro h hmem
        unfold calculate_summary at hmem
        dsimp only [] at hmem
        rw [mem_sortBy] at hmem
        simp only [List.map_cons, List.map_nil, List.mem_singleton] at hmem
        subst hmem
        unfold deriveGL
        dsimp only []
        exact ⟨by simp, by simp⟩
  · -- the extracted market value stands
    split
    · rename_i hcond
      obtain ⟨hq', hm'⟩ := (Bool.and_eq_true _ _).mp hcond
      have hq : last_val text (lc "Number of Shares") = 0 := of_decide_eq_true hq'
      have hm : last_val text (lc "Share Value") = 0 := of_decide_eq_true hm'
      refine ⟨by simp, ⟨fun _ => ⟨hq, hm⟩, fun _ => rfl⟩, ?_, ?_⟩
      · intro h hmem
        exact absurd hmem (List.not_mem_nil h)
      · intro h hmem
        unfold calculate_summary at hmem
        dsimp only [] at hmem
        rw [mem_sortBy] at hmem
        simp only [List.map_nil] at hmem
        exact absurd hmem (List.not_mem_nil h)
    · rename_i hcond
      refine ⟨by simp, ?_, ?_, ?_⟩
      · constructor
        · intro hfalse
          exact absurd hfalse (by simp)
        · rintro ⟨hq, hm0⟩
          refine absurd ?_ hcond
          rw [hq, hm0]
          simp
      · intro h hmem
        rw [List.mem_singleton] at hmem
        subst hmem
        exact ⟨rfl, rfl⟩
      · intro h hmem
        unfold calculate_summary at hmem
        dsimp only [] at hmem
        rw [mem_sortBy] at hmem
        simp only [List.map_cons, List.map_nil, List.mem_singleton] at hmem
        subst hmem
        unfold deriveGL
        dsimp only []
        exact ⟨by simp, by simp⟩

/-- Witness for C10 at a concrete statement text. -/
theorem C10_morgan_stanley_witness :
    ((Holding.mk (lc "Morgan Stanley") (lc "IBM")
        (lc "INTERNATIONAL BUSINESS MACHINES") 98 296.21 29028.58 0
        (lc "Stock") 0 0).cost_basis = 0
      ∧ (Holding.mk (lc "Morgan Stanley") (lc "IBM")
        (lc "INTERNATIONAL BUSINESS MACHINES") 98 296.21 29028.58 0
        (lc "Stock") 0 0).type = lc "Stock")
    ∧ ((Holding.mk (lc "Morgan Stanley") (lc "IBM")
        (lc "INTERNATIONAL BUSINESS MACHINES") 98 296.21 29028.58 0
        (lc "Stock") 29028.58 0).gain_loss
          = (Holding.mk (lc "Morgan Stanley") (lc "IBM")
        (lc "INTERNATIONAL BUSINESS MACHINES") 98 296.21 29028.58 0
        (lc "Stock") 29028.58 0).market_value
      ∧ (Holding.mk (lc "Morgan Stanley") (lc "IBM")
        (lc "INTERNATIONAL BUSINESS MACHINES") 98 296.21 29028.58 0
        (lc "Stock") 29028.58 0).gain_loss_pct = 0) :=
  ⟨(C10_morgan_stanley (lc "Morgan Stanley")
      (lc "Issuer Description: INTERNATIONAL BUSINESS MACHINES\nNumber of Shares 95.000 98.000\nShare Price 250.00 296.21\nShare Value 23750.00 29028.58")).2.2.1
    _ (by decide),
   (C10_morgan_stanley (lc "Morgan Stanley")
      (lc "Issuer Description: INTERNATIONAL BUSINESS MACHINES\nNumber of Shares 95.000 98.000\nShare Price 250.00 296.21\nShare Value 23750.00 29028.58")).2.2.2
    _ (by decide)⟩

theorem lexLt_irrefl : ∀ (a : LC), lexLt a a = false
  | [] => rfl
  | _ :: a => by simp [lexLt, lexLt_irrefl a]

theorem lexLt_asymm : ∀ (a b : LC), lexLt a b = true → lexLt b a = false
  | a, [], h => by simp [lexLt] at h
  | [], _ :: _, _ => rfl
  | a :: as, b :: bs, h => by
    simp only [lexLt] at h ⊢
    split at h
    · rename_i hab
      rw [if_neg (lt_asymm hab), if_pos hab]
    · split at h
      · exact absurd h (by simp)
      · rename_i hab hba
        rw [if_neg hba, if_neg hab]
        exact lexLt_asymm as bs h

theorem lexLt_trans : ∀ (a b c : LC), lexLt a b = true → lexLt b c = true → lexLt a c = true
  | _, [], _, h1, _ => by simp [lexLt] at h1
  | _, _ :: _, [], _, h2 => by simp [lexLt] at h2
  | [], _ :: _, _ :: _, _, _ => rfl
  | a :: as, b :: bs, c :: cs, h1, h2 => by
    simp only [lexLt] at h1 h2 ⊢
    by_cases hab : a < b
    · by_cases hbc : b < c
      · rw [if_pos (lt_trans hab hbc)]
      · rw [if_neg hbc] at h2
        by_cases hcb : c < b
        · rw [if_pos hcb] at h2
          exact absurd h2 (by simp)
        · have hbceq : b = c := le_antisymm (not_lt.mp hcb) (not_lt.mp hbc)
          subst hbceq
          rw [if_pos hab]
    · rw [if_neg hab] at h1
      by_cases hba : b < a
      · rw [if_pos hba] at h1
        exact absurd h1 (by simp)
      · rw [if_neg hba] at h1
        have habeq : a = b := le_antisymm (not_lt.mp hba) (not_lt.mp hab)
        subst habeq
        by_cases hac : a < c
        · rw [if_pos hac]
        · rw [if_neg hac] at h2 ⊢
          by_cases hca : c < a
          · rw [if_pos hca] at h2
            exact absurd h2 (by simp)
          · rw [if_neg hca] at h2 ⊢
            exact lexLt_trans as bs cs h1 h2

theorem lexLt_connex : ∀ (a b : LC), lexLt a b = false → lexLt b a = false → a = b
  | [], [], _, _ => rfl
  | [], _ :: _, h1, _ => by simp [lexLt] at h1
  | _ :: _, [], _, h2 => by simp [lexLt] at h2
  | a :: as, b :: bs, h1, h2 => by
    simp only [lexLt] at h1 h2
    by_cases hab : a < b
    · rw [if_pos hab] at h1
      exact absurd h1 (by simp)
    · rw [if_neg hab] at h1
      by_cases hba : b < a
      · rw [if_pos hba] at h2
        exact absurd h2 (by simp)
      · rw [if_neg hba] at h1
        rw [if_neg hba, if_neg hab] at h2
        have habeq : a = b := le_antisymm (not_lt.mp hba) (not_lt.mp hab)
        subst habeq
        rw [lexLt_connex as bs h1 h2]

theorem lexLe_refl (a : LC) : lexLe a a = true := by
  unfold lexLe
  rw [lexLt_irrefl]
  rfl

theorem lexLe_of_lt {a b : LC} (h : lexLt a b = true) : lexLe a b = true := by
  unfold lexLe
  rw [lexLt_asymm a b h]
  rfl

theorem lexLe_trans {a b c : LC} (h1 : lexLe a b = true) (h2 : lexLe b c = true) :
    lexLe a c = true := by
  unfold lexLe at h1 h2 ⊢
  rw [Bool.not_eq_true'] at h1 h2 ⊢
  cases hca : lexLt c a with
  | false => rfl
  | true =>
    cases hcb : lexLt c b with
    | true => rw [hcb] at h2; exact Bool.noConfusion h2
    | false =>
      cases hbc : lexLt b c with
      | true =>
        rw [lexLt_trans b c a hbc hca] at h1
        exact Bool.noConfusion h1
      | false =>
        have heq : b = c := lexLt_connex b c hbc hcb
        subst heq
        rw [hca] at h1
        exact Bool.noConfusion h1

theorem updBest_mem : ∀ (b : List (LC × LC × LC)) (k d f : LC) (e : LC × LC × LC),
    e ∈ updBest b k d f → e ∈ b ∨ e = (k, d, f)
  | [], k, d, f, e, h => by
    unfold updBest at h
    rw [List.mem_singleton] at h
    exact Or.inr h
  | (k0, d0, f0) :: rest, k, d, f, e, h => by
    unfold updBest at h
    split at h
    · rename_i hk
      rcases List.mem_cons.mp h with h1 | h1
      · split at h1
        · subst hk
          exact Or.inr h1
        · exact Or.inl (by rw [h1]; exact List.mem_cons_self _ _)
      · exact Or.inl (List.mem_cons_of_mem _ h1)
    · rcases List.mem_cons.mp h with h1 | h1
      · exact Or.inl (by rw [h1]; exact List.mem_cons_self _ _)
      · rcases updBest_mem rest k d f e h1 with h2 | h2
        · exact Or.inl (List.mem_cons_of_mem _ h2)
        · exact Or.inr h2

theorem updBest_mem_of_ne : ∀ (b : List (LC × LC × LC)) (k d f : LC) (e : LC × LC × LC),
    e ∈ b → e.1 ≠ k → e ∈ updBest b k d f
  | [], _, _, _, e, h, _ => absurd h (List.not_mem_nil e)
  | (k0, d0, f0) :: rest, k, d, f, e, h, hne => by
    unfold updBest
    split
    · rename_i hk
      rcases List.mem_cons.mp h with h1 | h1
      · exact absurd (by rw [h1, ← hk]) hne
      · exact List.mem_cons_of_mem _ h1
    · rcases List.mem_cons.mp h with h1 | h1
      · rw [h1]
        exact List.mem_cons_self _ _
      · exact List.mem_cons_of_mem _ (updBest_mem_of_ne rest k d f e h1 hne)

theorem updBest_key_mem : ∀ (b : List (LC × LC × LC)) (k d f : LC),
    ∃ e ∈ updBest b k d f, e.1 = k
  | [], k, d, f => ⟨(k, d, f), by unfold updBest; exact List.mem_singleton.mpr rfl, rfl⟩
  | (k0, d0, f0) :: rest, k, d, f => by
    unfold updBest
    split
    · rename_i hk
      split
      · exact ⟨(k0, d, f), List.mem_cons_self _ _, hk.symm⟩
      · exact ⟨(k0, d0, f0), List.mem_cons_self _ _, hk.symm⟩
    · obtain ⟨e, he, hke⟩ := updBest_key_mem rest k d f
      exact ⟨e, List.mem_cons_of_mem _ he, hke⟩

theorem updBest_nodup : ∀ (b : List (LC × LC × LC)) (k d f : LC),
    (b.map (fun e => e.1)).Nodup → ((updBest b k d f).map (fun e => e.1)).Nodup
  | [], k, d, f, _ => by
    unfold updBest
    simp
  | (k0, d0, f0) :: rest, k, d, f, hnd => by
    simp only [List.map_cons, List.nodup_cons] at hnd
    unfold updBest
    split
    · split
      · simpa [List.nodup_cons] using hnd
      · simpa [List.nodup_cons] using hnd
    · rename_i hk
      simp only [List.map_cons, List.nodup_cons]
      refine ⟨?_, updBest_nodup rest k d f hnd.2⟩
      intro hcontra
      rcases List.mem_map.mp hcontra with ⟨e, he, hke⟩
      rcases updBest_mem rest k d f e he with h2 | h2
      · exact hnd.1 (List.mem_map.mpr ⟨e, h2, hke⟩)
      · rw [h2] at hke
        exact hk (by simpa using hke)

theorem updBest_key_bound : ∀ (b : List (LC × LC × LC)) (k d f : LC),
    (b.map (fun e => e.1)).Nodup →
    ∀ e ∈ updBest b k d f, e.1 = k →
      lexLe d e.2.1 = true ∧ ∀ e0 ∈ b, e0.1 = k → lexLe e0.2.1 e.2.1 = true
  | [], k, d, f, _, e, he, _ => by
    unfold updBest at he
    rw [List.mem_singleton] at he
    subst he
    exact ⟨lexLe_refl d, fun e0 he0 _ => absurd he0 (List.not_mem_nil e0)⟩
  | (k0, d0, f0) :: rest, k, d, f, hnd, e, he, hek => by
    simp only [List.map_cons, List.nodup_cons] at hnd
    unfold updBest at he
    split at he
    · rename_i hk
      subst hk
      rcases List.mem_cons.mp he with h1 | h1
      · constructor
        · split at h1
          · rw [h1]
            exact lexLe_refl d
          · rename_i hlt
            rw [h1]
            show lexLe d d0 = true
            unfold lexLe
            rw [Bool.eq_false_iff.mpr hlt]
            rfl
        · intro e0 he0 hk0
          rcases List.mem_cons.mp he0 with h2 | h2
          · split at h1
            · rename_i hlt
              rw [h1, h2]
              exact lexLe_of_lt hlt
            · rw [h1, h2]
              exact lexLe_refl d0
          · exact absurd (List.mem_map.mpr ⟨e0, h2, hk0⟩) hnd.1
      · exact absurd (List.mem_map.mpr ⟨e, h1, hek⟩) hnd.1
    · rename_i hk
      rcases List.mem_cons.mp he with h1 | h1
      · rw [h1] at hek
        exact absurd hek.symm hk
      · obtain ⟨hb1, hb2⟩ := updBest_key_bound rest k d f hnd.2 e h1 hek
        refine ⟨hb1, ?_⟩
        intro e0 he0 hk0
        rcases List.mem_cons.mp he0 with h2 | h2
        · rw [h2] at hk0
          exact absurd hk0.symm hk
        · exact hb2 e0 h2 hk0

theorem nodup_keys_unique : ∀ (b : List (LC × LC × LC)),
    (b.map (fun e => e.1)).Nodup →
    ∀ e1 ∈ b, ∀ e2 ∈ b, e1.1 = e2.1 → e1 = e2
  | [], _, e1, h, _, _, _ => absurd h (List.not_mem_nil e1)
  | x :: rest, hnd, e1, h1, e2, h2, hk => by
    simp only [List.map_cons, List.nodup_cons] at hnd
    rcases List.mem_cons.mp h1 with ha | ha <;> rcases List.mem_cons.mp h2 with hb | hb
    · rw [ha, hb]
    · subst ha
      exact absurd (List.mem_map.mpr ⟨e2, hb, hk.symm⟩) hnd.1
    · subst hb
      exact absurd (List.mem_map.mpr ⟨e1, ha, hk⟩) hnd.1
    · exact nodup_keys_unique rest hnd.2 e1 ha e2 hb hk

theorem bestFold_invAux :
    ∀ (l seen : List LC) (b : List (LC × LC × LC)),
      (b.map (fun e => e.1)).Nodup →
      (∀ e ∈ b, e.2.2 ∈ seen ∧ _extract_date_and_account e.2.2 = (e.2.1, e.1)) →
      (∀ g ∈ seen, ∀ e ∈ b, e.1 = (_extract_date_and_account g).2 →
          lexLe (_extract_date_and_account g).1 e.2.1 = true) →
      (∀ g ∈ seen, ∃ e ∈ b, e.1 = (_extract_date_and_account g).2) →
      ((l.foldl bestStep b).map (fun e => e.1)).Nodup
      ∧ (∀ e ∈ l.foldl bestStep b,
          e.2.2 ∈ seen ++ l ∧ _extract_date_and_account e.2.2 = (e.2.1, e.1))
      ∧ (∀ g ∈ seen ++ l, ∀ e ∈ l.foldl bestStep b,
          e.1 = (_extract_date_and_account g).2 →
          lexLe (_extract_date_and_account g).1 e.2.1 = true)
      ∧ (∀ g ∈ seen ++ l, ∃ e ∈ l.foldl bestStep b,
          e.1 = (_extract_date_and_account g).2)
  | [], seen, b, hnd, hb, hc, hd => by
    simp only [List.foldl_nil, List.append_nil]
    exact ⟨hnd, hb, hc, hd⟩
  | f :: l, seen, b, hnd, hb, hc, hd => by
    have hstep := bestFold_invAux l (seen ++ [f]) (bestStep b f)
      (updBest_nodup b _ _ f hnd)
      (by
        intro e he
        rcases updBest_mem b _ _ f e he with h1 | h1
        · obtain ⟨hm, hx⟩ := hb e h1
          exact ⟨List.mem_append_left _ hm, hx⟩
        · subst h1
          exact ⟨List.mem_append_right _ (List.mem_singleton.mpr rfl), rfl⟩)
      (by
        intro g hg e he hek
        rcases List.mem_append.mp hg with hg1 | hg1
        · by_cases hkey : (_extract_date_and_account g).2 = (_extract_date_and_account f).2
          · obtain ⟨hb1, hb2⟩ := updBest_key_bound b _ _ f hnd e he (by rw [hek, hkey])
            obtain ⟨e0, he0, hk0⟩ := hd g hg1
            have h1 := hc g hg1 e0 he0 hk0
            have h2 := hb2 e0 he0 (by rw [hk0, hkey])
            exact lexLe_trans h1 h2
          · have hne : e.1 ≠ (_extract_date_and_account f).2 := by
              rw [hek]
              exact hkey
            rcases updBest_mem b _ _ f e he with h1 | h1
            · exact hc g hg1 e h1 hek
            · rw [h1] at hne
              exact absurd rfl hne
        · rw [List.mem_singleton] at hg1
          subst hg1
          exact (updBest_key_bound b _ _ g hnd e he hek).1)
      (by
        intro g hg
        rcases List.mem_append.mp hg with hg1 | hg1
        · obtain ⟨e0, he0, hk0⟩ := hd g hg1
          by_cases hkey : e0.1 = (_extract_date_and_account f).2
          · obtain ⟨e, he, hke⟩ := updBest_key_mem b _ _ f
            exact ⟨e, he, hke.trans (hkey.symm.trans hk0)⟩
          · exact ⟨e0, updBest_mem_of_ne b _ _ f e0 he0 hkey, hk0⟩
        · rw [List.mem_singleton] at hg1
          subst hg1
          obtain ⟨e, he, hke⟩ := updBest_key_mem b _ _ g
          exact ⟨e, he, hke⟩)
    have hmain : seen ++ [f] ++ l = seen ++ f :: l := by simp
    rw [List.foldl_cons]
    rw [← hmain]
    exact hstep

theorem bestFold_inv (files : List LC) :
    ((bestFold files).map (fun e => e.1)).Nodup
    ∧ (∀ e ∈ bestFold files, e.2.2 ∈ files
        ∧ _extract_date_and_account e.2.2 = (e.2.1, e.1))
    ∧ (∀ g ∈ files, ∀ e ∈ bestFold files, e.1 = (_extract_date_and_account g).2 →
        lexLe (_extract_date_and_account g).1 e.2.1 = true)
    ∧ (∀ g ∈ files, ∃ e ∈ bestFold files, e.1 = (_extract_date_and_account g).2) := by
  have h := bestFold_invAux files [] []
    (by simp) (by intro e he; exact absurd he (List.not_mem_nil e))
    (by intro g hg; exact absurd hg (List.not_mem_nil g))
    (by intro g hg; exact absurd hg (List.not_mem_nil g))
  simpa [bestFold] using h

/-- C4: the statement selector keeps, among eligible files whose names yield
the same inferred account key, exactly one file, whose derived date string is
lexicographically maximal within that key group, and every eligible file's key
group is represented in the output; in particular, of
`STMT_2025-06-30_111.PDF` and `STMT_2025-09-30_111.PDF` only the September
file is retained, while `Statement12312025.pdf` and `Statement12312025-2.pdf`
are both retained (their variant suffixes yield distinct account keys). -/
theorem C4_statement_selector :
    (∀ (files : List LC) (f g : LC), f ∈ files.filter eligibleFile →
        g ∈ _most_recent_files files →
        (_extract_date_and_account f).2 = (_extract_date_and_account g).2 →
        lexLe (_extract_date_and_account f).1 (_extract_date_and_account g).1 = true)
    ∧ (∀ (files : List LC) (f : LC), f ∈ files.filter eligibleFile →
        ∃ g ∈ _most_recent_files files,
          (_extract_date_and_account g).2 = (_extract_date_and_account f).2)
    ∧ (∀ (files : List LC) (g g2 : LC), g ∈ _most_recent_files files →
        g2 ∈ _most_recent_files files →
        (_extract_date_and_account g).2 = (_extract_date_and_account g2).2 → g = g2)
    ∧ _most_recent_files [lc "STMT_2025-06-30_111.PDF", lc "STMT_2025-09-30_111.PDF"]
        = [lc "STMT_2025-09-30_111.PDF"]
    ∧ (_extract_date_and_account (lc "Statement12312025.pdf")).2
        ≠ (_extract_date_and_account (lc "Statement12312025-2.pdf")).2
    ∧ _most_recent_files [lc "Statement12312025.pdf", lc "Statement12312025-2.pdf"]
        = [lc "Statement12312025-2.pdf", lc "Statement12312025.pdf"] := by
  refine ⟨?_, ?_, ?_, by decide, by decide, by decide⟩
  · intro files f g hf hg hkey
    obtain ⟨hnd, hb, hc, hd⟩ := bestFold_inv (files.filter eligibleFile)
    unfold _most_recent_files at hg
    rw [mem_sortBy] at hg
    obtain ⟨e, he, hev⟩ := List.mem_map.mp hg
    obtain ⟨_, hex⟩ := hb e he
    rw [hev] at hex
    have hgkey : (_extract_date_and_account g).2 = e.1 := by rw [hex]
    have hgdate : (_extract_date_and_account g).1 = e.2.1 := by rw [hex]
    rw [hgdate]
    exact hc f hf e he (hkey.trans hgkey).symm
  · intro files f hf
    obtain ⟨hnd, hb, hc, hd⟩ := bestFold_inv (files.filter eligibleFile)
    obtain ⟨e, he, hke⟩ := hd f hf
    refine ⟨e.2.2, ?_, ?_⟩
    · unfold _most_recent_files
      rw [mem_sortBy]
      exact List.mem_map.mpr ⟨e, he, rfl⟩
    · obtain ⟨_, hex⟩ := hb e he
      rw [hex]
      exact hke
  · intro files g g2 hg hg2 hkey
    obtain ⟨hnd, hb, _, _⟩ := bestFold_inv (files.filter eligibleFile)
    unfold _most_recent_files at hg hg2
    rw [mem_sortBy] at hg hg2
    obtain ⟨e, he, hev⟩ := List.mem_map.mp hg
    obtain ⟨e2, he2, hev2⟩ := List.mem_map.mp hg2
    obtain ⟨_, hex⟩ := hb e he
    obtain ⟨_, hex2⟩ := hb e2 he2
    have hk1 : e.1 = e2.1 := by
      rw [hev] at hex
      rw [hev2] at hex2
      have h1 : (_extract_date_and_account g).2 = e.1 := by rw [hex]
      have h2 : (_extract_date_and_account g2).2 = e2.1 := by rw [hex2]
      rw [← h1, ← h2, hkey]
    have heq := nodup_keys_unique (bestFold (files.filter eligibleFile)) hnd e he e2 he2 hk1
    rw [← hev, ← hev2, heq]

/-- Witness for C4: the maximality and coverage clauses applied to the
concrete pair of `_111` statement files. -/
theorem C4_statement_selector_witness :
    lexLe (_extract_date_and_account (lc "STMT_2025-06-30_111.PDF")).1
        (_extract_date_and_account (lc "STMT_2025-09-30_111.PDF")).1 = true
    ∧ ∃ g ∈ _most_recent_files
          [lc "STMT_2025-06-30_111.PDF", lc "STMT_2025-09-30_111.PDF"],
        (_extract_date_and_account g).2
          = (_extract_date_and_account (lc "STMT_2025-06-30_111.PDF")).2 :=
  ⟨C4_statement_selector.1
      [lc "STMT_2025-06-30_111.PDF", lc "STMT_2025-09-30_111.PDF"]
      (lc "STMT_2025-06-30_111.PDF") (lc "STMT_2025-09-30_111.PDF")
      (by decide) (by decide) (by decide),
   C4_statement_selector.2.1
      [lc "STMT_2025-06-30_111.PDF", lc "STMT_2025-09-30_111.PDF"]
      (lc "STMT_2025-06-30_111.PDF") (by decide)⟩
